import Mathlib

/-! Verification of the local OAuth callback helpers.

A shallow embedding, in Lean 4, of the two source files of this repository:

* the callback-server helpers (`createServer`, `authSiteUrl`, `stringToJson`,
  `cors`, `codeTransform`, `handleGET`, `handlePOST`, `createJsonResponse`),
  referred to below as "the helpers file";
* the electron window watcher (`handleCallback`), "the watcher file".

JavaScript platform primitives that the source calls (`JSON.parse`,
`JSON.stringify`, `querystring.parse`, `url.URL`, node `http` responses,
promise executors) are modelled explicitly below, with the modelling
assumptions stated in the doc comment of each definition.
-/

set_option autoImplicit false

namespace AioOauth

/-! ## A model of JavaScript JSON values

JSON numbers are modelled as integers: the fractional / exponential number
forms (IEEE doubles in JavaScript) are outside the embedding. Objects keep
their member list in source order, including duplicate keys, exactly as a
parser sees them; property access resolves duplicates like JavaScript does
(last member wins, see `getProp`). -/
inductive Json where
  | null
  | bool (b : Bool)
  | num (n : Int)
  | str (s : String)
  | arr (elems : List Json)
  | obj (members : List (String × Json))

/-- JSON whitespace, as accepted by `JSON.parse`. -/
def isWs (c : Char) : Bool :=
  decide (c = '\t' ∨ c = '\n' ∨ c = '\r' ∨ c = ' ')

/-- Drop leading JSON whitespace. -/
def skipWs : List Char → List Char
  | [] => []
  | c :: r => if isWs c then skipWs r else c :: r

/-- Value of a hexadecimal digit character. -/
def hexDigit? (c : Char) : Option Nat :=
  if '0' ≤ c ∧ c ≤ '9' then some (c.toNat - 48)
  else if 'a' ≤ c ∧ c ≤ 'f' then some (c.toNat - 87)
  else if 'A' ≤ c ∧ c ≤ 'F' then some (c.toNat - 55)
  else none

/-- Lower-case hexadecimal digit character for `n < 16`. -/
def hexChar (n : Nat) : Char :=
  if n < 10 then Char.ofNat (48 + n) else Char.ofNat (87 + n)

/-- The single-character string escapes of JSON. -/
def escChar? (e : Char) : Option Char :=
  if e = '"' then some '"'
  else if e = '\\' then some '\\'
  else if e = '/' then some '/'
  else if e = 'b' then some (Char.ofNat 8)
  else if e = 'f' then some (Char.ofNat 12)
  else if e = 'n' then some '\n'
  else if e = 'r' then some '\r'
  else if e = 't' then some '\t'
  else none

/-- Parse the body of a JSON string literal (the opening quote already
consumed), returning the decoded characters and the rest of the input.
Raw control characters are rejected, as in `JSON.parse`. -/
def pStr : List Char → Option (List Char × List Char)
  | [] => none
  | '"' :: rest => some ([], rest)
  | '\\' :: 'u' :: a :: b :: c2 :: d :: rest3 =>
    (match hexDigit? a, hexDigit? b, hexDigit? c2, hexDigit? d with
     | some ha, some hb, some hc, some hd =>
       (pStr rest3).map fun p =>
         (Char.ofNat (((ha * 16 + hb) * 16 + hc) * 16 + hd) :: p.1, p.2)
     | _, _, _, _ => none)
  | '\\' :: e :: rest2 =>
    (match escChar? e with
     | some ec => (pStr rest2).map fun p => (ec :: p.1, p.2)
     | none => none)
  | c :: rest =>
    if c.toNat < 32 then none
    else (pStr rest).map fun p => (c :: p.1, p.2)

/-- Escape one character the way `JSON.stringify` renders string contents:
quote and backslash get a backslash escape, control characters a `\u00XX`
escape, everything else is emitted verbatim. -/
def escCh (c : Char) : List Char :=
  if c = '"' then ['\\', '"']
  else if c = '\\' then ['\\', '\\']
  else if c.toNat < 32 then
    ['\\', 'u', '0', '0', hexChar (c.toNat / 16), hexChar (c.toNat % 16)]
  else [c]

/-- Escape a whole string body. -/
def escStr : List Char → List Char
  | [] => []
  | c :: r => escCh c ++ escStr r

/-- Decimal digit characters of `n`, most significant first. -/
def natToChars (n : Nat) : List Char :=
  if h : n < 10 then [Char.ofNat (48 + n)]
  else natToChars (n / 10) ++ [Char.ofNat (48 + n % 10)]
decreasing_by
  exact Nat.div_lt_self (by omega) (by omega)

/-- Decimal rendering of an integer, as `JSON.stringify` renders integral
numbers. -/
def intToChars (n : Int) : List Char :=
  if n < 0 then '-' :: natToChars n.natAbs else natToChars n.natAbs

/-- Numeric value of a digit character. -/
def digitVal (c : Char) : Nat := c.toNat - 48

/-- Parse a nonempty run of decimal digits. -/
def pNat (cs : List Char) : Option (Nat × List Char) :=
  let ds := cs.takeWhile Char.isDigit
  if ds = [] then none
  else some (ds.foldl (fun a c => 10 * a + digitVal c) 0, cs.dropWhile Char.isDigit)

/-- Parse a JSON number (optional minus sign followed by digits; the
fractional and exponential forms are outside the embedding). -/
def pNum (cs : List Char) : Option (Json × List Char) :=
  match cs with
  | [] => none
  | c :: r =>
    if c = '-' then (pNat r).map fun p => (Json.num (-(p.1 : Int)), p.2)
    else (pNat (c :: r)).map fun p => (Json.num ((p.1 : Nat) : Int), p.2)

mutual

/-- Serialize a JSON value, mirroring `JSON.stringify` (no added
whitespace, members in order, strings escaped by `escCh`). -/
def emitV : Json → List Char
  | .null => "null".data
  | .bool true => "true".data
  | .bool false => "false".data
  | .num n => intToChars n
  | .str s => '"' :: (escStr s.data ++ ['"'])
  | .arr [] => ['[', ']']
  | .arr (x :: xs) => '[' :: (emitElems x xs ++ [']'])
  | .obj [] => ['{', '}']
  | .obj (m :: ms) => '{' :: (emitMembers m ms ++ ['}'])
termination_by j => sizeOf j

/-- Comma-separated serialization of a nonempty array tail. -/
def emitElems : Json → List Json → List Char
  | x, [] => emitV x
  | x, y :: ys => emitV x ++ ',' :: emitElems y ys
termination_by x xs => 1 + sizeOf x + sizeOf xs

/-- Comma-separated serialization of a nonempty member list. -/
def emitMembers : (String × Json) → List (String × Json) → List Char
  | m, [] => emitMember m
  | m, m2 :: ms => emitMember m ++ ',' :: emitMembers m2 ms
termination_by m ms => 1 + sizeOf m + sizeOf ms

/-- One `"key":value` member. -/
def emitMember : (String × Json) → List Char
  | (k, v) => '"' :: (escStr k.data ++ '"' :: ':' :: emitV v)
termination_by m => sizeOf m

end

mutual

/-- Fuel needed by `pValue` to parse the serialization of a value. -/
def fuelV : Json → Nat
  | .arr [] => 1
  | .arr (x :: xs) => fuelElems x xs + 1
  | .obj [] => 1
  | .obj (m :: ms) => fuelMembers m ms + 1
  | .null => 1
  | .bool _ => 1
  | .num _ => 1
  | .str _ => 1
termination_by j => sizeOf j

/-- Fuel needed by `pElems`. -/
def fuelElems : Json → List Json → Nat
  | x, [] => fuelV x + 1
  | x, y :: ys => max (fuelV x) (fuelElems y ys) + 1
termination_by x xs => 1 + sizeOf x + sizeOf xs

/-- Fuel needed by `pMembers`. -/
def fuelMembers : (String × Json) → List (String × Json) → Nat
  | (k, v), [] => fuelV v + 1
  | (k, v), m2 :: ms => max (fuelV v) (fuelMembers m2 ms) + 1
termination_by m ms => 1 + sizeOf m + sizeOf ms

end

mutual

/-- Fueled recursive-descent JSON parser: parse one value, returning it and
the unconsumed input. Dispatches on the first non-whitespace character. -/
def pValue : Nat → List Char → Option (Json × List Char)
  | 0, _ => none
  | f + 1, cs =>
    match skipWs cs with
    | [] => none
    | c :: r =>
      if c = 'n' then
        match r with
        | 'u' :: 'l' :: 'l' :: r2 => some (.null, r2)
        | _ => none
      else if c = 't' then
        match r with
        | 'r' :: 'u' :: 'e' :: r2 => some (.bool true, r2)
        | _ => none
      else if c = 'f' then
        match r with
        | 'a' :: 'l' :: 's' :: 'e' :: r2 => some (.bool false, r2)
        | _ => none
      else if c = '"' then
        (pStr r).map fun p => (.str (String.mk p.1), p.2)
      else if c = '[' then
        match skipWs r with
        | [] => none
        | c2 :: r2 =>
          if c2 = ']' then some (.arr [], r2)
          else (pElems f (c2 :: r2)).map fun p => (.arr p.1, p.2)
      else if c = '{' then
        match skipWs r with
        | [] => none
        | c2 :: r2 =>
          if c2 = '}' then some (.obj [], r2)
          else (pMembers f (c2 :: r2)).map fun p => (.obj p.1, p.2)
      else if c = '-' || c.isDigit then pNum (c :: r)
      else none

/-- Parse the elements of a nonempty array, consuming the closing `]`. -/
def pElems : Nat → List Char → Option (List Json × List Char)
  | 0, _ => none
  | f + 1, cs =>
    match pValue f cs with
    | none => none
    | some (v, r) =>
      match skipWs r with
      | [] => none
      | c :: r2 =>
        if c = ',' then (pElems f r2).map fun p => (v :: p.1, p.2)
        else if c = ']' then some ([v], r2)
        else none

/-- Parse the members of a nonempty object, consuming the closing brace. -/
def pMembers : Nat → List Char → Option (List (String × Json) × List Char)
  | 0, _ => none
  | f + 1, cs =>
    match skipWs cs with
    | [] => none
    | c :: r =>
      if c = '"' then
        match pStr r with
        | none => none
        | some (k, r2) =>
          match skipWs r2 with
          | [] => none
          | c2 :: r3 =>
            if c2 = ':' then
              match pValue f r3 with
              | none => none
              | some (v, r4) =>
                match skipWs r4 with
                | [] => none
                | c3 :: r5 =>
                  if c3 = ',' then
                    (pMembers f r5).map fun p => ((String.mk k, v) :: p.1, p.2)
                  else if c3 = '}' then some ([(String.mk k, v)], r5)
                  else none
            else none
      else none

end

/-- `true` when the input does not start with a decimal digit (so that a
preceding number parse cannot consume into it). -/
def headNotDigit : List Char → Bool
  | [] => true
  | c :: _ => !c.isDigit

/-- The error message carried by the model of a `JSON.parse` `SyntaxError`. -/
def jsonErrMsg : String := "Unexpected token in JSON"

/-- Model of `JSON.parse` on a string: a thrown `SyntaxError` is an
`Except.error`. The whole input, up to trailing whitespace, must be one
JSON value. -/
def jsonParseE (s : String) : Except String Json :=
  match pValue (s.data.length + 1) s.data with
  | some (j, r) => if skipWs r = [] then .ok j else .error jsonErrMsg
  | none => .error jsonErrMsg

/-- Model of `JSON.stringify` on JSON-serializable values. -/
def jsonStringify (j : Json) : String := String.mk (emitV j)

/-! ## The helpers file: constants and pure helpers -/

/-- The two IMS environments of the fixed URL table. An unrecognized
environment key (a caller error per the spec) is outside the embedding. -/
inductive Env where
  | prod
  | stage

/-- `const DEFAULT_ENV = 'prod'`. -/
def DEFAULT_ENV : Env := .prod

/-- `const PROTOCOL_VERSION = 2`. -/
def PROTOCOL_VERSION : Int := 2

/-- The fixed `IMS_CLI_OAUTH_URL` table. -/
def IMS_CLI_OAUTH_URL : Env → String
  | .prod => "https://aio-login.adobeioruntime.net/api/v1/web/default/applogin"
  | .stage => "https://aio-login.adobeioruntime.net/api/v1/web/default/applogin-stage"

/-- UTF-8 bytes of one character (as `Nat` values below 256). -/
def utf8Bytes (c : Char) : List Nat :=
  let n := c.toNat
  if n < 0x80 then [n]
  else if n < 0x800 then [0xC0 + n / 64, 0x80 + n % 64]
  else if n < 0x10000 then [0xE0 + n / 4096, 0x80 + n / 64 % 64, 0x80 + n % 64]
  else [0xF0 + n / 262144, 0x80 + n / 4096 % 64, 0x80 + n / 64 % 64, 0x80 + n % 64]

/-- Upper-case hexadecimal digit character for `n < 16`. -/
def hexCharU (n : Nat) : Char :=
  if n < 10 then Char.ofNat (48 + n) else Char.ofNat (55 + n)

/-- Bytes kept verbatim by the `application/x-www-form-urlencoded`
serializer: ASCII alphanumerics and `*`, `-`, `.`, `_`. -/
def formUnreserved (b : Nat) : Bool :=
  (48 ≤ b && b ≤ 57) || (65 ≤ b && b ≤ 90) || (97 ≤ b && b ≤ 122) ||
  b == 0x2A || b == 0x2D || b == 0x2E || b == 0x5F

/-- Render one byte for a query string: verbatim, `+` for space, else
percent-encoded. -/
def formByte (b : Nat) : List Char :=
  if formUnreserved b then [Char.ofNat b]
  else if b = 32 then ['+']
  else ['%', hexCharU (b / 16), hexCharU (b % 16)]

/-- `application/x-www-form-urlencoded` encoding of one component, as
`URLSearchParams` serializes keys and values. -/
def encodeForm (s : String) : String :=
  String.mk (List.foldr (fun c acc => ((utf8Bytes c).map formByte).flatten ++ acc) [] s.data)

/-- Serialization of a `URLSearchParams` list appended to a URL that has no
query of its own: empty when there are no pairs, otherwise `?k=v&…`. -/
def serializeQuery (ps : List (String × String)) : String :=
  match ps with
  | [] => ""
  | _ => "?" ++ String.intercalate "&" (ps.map fun p => encodeForm p.1 ++ "=" ++ encodeForm p.2)

/-- `URLSearchParams.set` when the key is already present: the first
matching pair gets the new value, later matching pairs are deleted. -/
def spReplace : List (String × String) → String → String → List (String × String)
  | [], _, _ => []
  | p :: rest, k, v =>
    if p.1 = k then (k, v) :: rest.filter (fun q => !(q.1 == k))
    else p :: spReplace rest k v

/-- `URLSearchParams.set`: replace if present, else append at the end. -/
def spSet (ps : List (String × String)) (k v : String) : List (String × String) :=
  if ps.any (fun p => p.1 == k) then spReplace ps k v else ps ++ [(k, v)]

/-- A JavaScript value supplied in the `queryParams` object of
`authSiteUrl`: a string, `undefined`, or `null`. -/
inductive JsParam where
  | pstr (s : String)
  | pUndefined
  | pnull

/-- `authSiteUrl(queryParams, env)` from the helpers file: walk the keys of
`queryParams` in insertion order and set every defined, non-null value as a
query parameter on the environment base URL; return the resulting `href`.
The base URLs carry no query of their own, so the `href` is the base URL
followed by the serialized search parameters. The JavaScript object is
modelled as an insertion-ordered key/value list (object keys are unique). -/
def authSiteUrl (queryParams : List (String × JsParam)) (env : Env := DEFAULT_ENV) : String :=
  let ps := queryParams.foldl
    (fun acc kv =>
      match kv.2 with
      | .pstr v => spSet acc kv.1 v
      | _ => acc) []
  IMS_CLI_OAUTH_URL env ++ serializeQuery ps

/-- JavaScript string coercion of a `string | undefined` value, as used by
template literals and by `JSON.parse`'s argument coercion. -/
def jsStr : Option String → String
  | none => "undefined"
  | some s => s

/-- `stringToJson(value)` from the helpers file: `JSON.parse` inside a
`try`, any thrown error caught and replaced by the empty object. The
argument at both call sites is `queryData.state : string | undefined`;
`JSON.parse(undefined)` coerces to the string `"undefined"`, which fails to
parse. -/
def stringToJson (value : Option String) : Json :=
  match jsonParseE (jsStr value) with
  | .ok j => j
  | .error _ => Json.obj []

/-! ## The helpers file: the node `http` response object -/

/-- ASCII lower-casing of one character (node header names are
case-insensitive). -/
def lowerChar (c : Char) : Char :=
  if 'A' ≤ c ∧ c ≤ 'Z' then Char.ofNat (c.toNat + 32) else c

/-- ASCII lower-casing of a string. -/
def lowerStr (s : String) : String := String.mk (s.data.map lowerChar)

/-- Insert or replace a header in a header list, matching names
case-insensitively, as `response.setHeader` does. -/
def setH : List (String × String) → String → String → List (String × String)
  | [], k, v => [(k, v)]
  | h :: t, k, v => if lowerStr h.1 = lowerStr k then (k, v) :: t else h :: setH t k v

/-- The observable state of a node `http.ServerResponse`: headers set so
far, the `statusCode` property, the status passed to `writeHead` (if
called), whether `end` was called, and the body passed to `end`. -/
structure Resp where
  headers : List (String × String) := []
  statusCode : Nat := 200
  sentHead : Option Nat := none
  ended : Bool := false
  body : Option String := none

/-- A fresh response object. -/
def Resp.init : Resp := {}

/-- `response.setHeader(k, v)`. -/
def setHeader (r : Resp) (k v : String) : Resp :=
  { r with headers := setH r.headers k v }

/-- `response.writeHead(status, headers)`: records the status that will be
sent on the wire and merges the given headers (they take precedence over
ones set with `setHeader`). -/
def writeHead (r : Resp) (s : Nat) (hs : List (String × String)) : Resp :=
  { hs.foldl (fun acc kv => setHeader acc kv.1 kv.2) r with sentHead := some s }

/-- `response.end(body?)`. -/
def endBody (r : Resp) (b : Option String) : Resp :=
  { r with ended := true, body := b }

/-- The status transmitted in the HTTP status line: per the node docs, a
status passed to `writeHead` is what is sent, regardless of any earlier
assignment to the `statusCode` property; without `writeHead`, `statusCode`
is sent when the headers are flushed by `end`. -/
def wireStatus (r : Resp) : Nat := r.sentHead.getD r.statusCode

/-- Read back a header (case-insensitive), first match wins. -/
def getHeader (r : Resp) (k : String) : Option String :=
  (r.headers.find? fun p => lowerStr p.1 == lowerStr k).map (·.2)

/-- The origin (scheme + host) of an absolute URL of the shape
`scheme://host/path…`, as `new url.URL(u).origin` yields for the URLs in
the `IMS_CLI_OAUTH_URL` table (no userinfo, no explicit port). -/
def splitSchemeRest : List Char → Option (List Char × List Char)
  | [] => none
  | ':' :: '/' :: '/' :: rest => some ([], rest)
  | c :: rest => (splitSchemeRest rest).map fun p => (c :: p.1, p.2)

/-- See `splitSchemeRest`. -/
def urlOrigin (u : String) : String :=
  match splitSchemeRest u.data with
  | some (scheme, rest) =>
    String.mk (scheme ++ ':' :: '/' :: '/' ::
      rest.takeWhile fun c => !(c == '/' || c == '?' || c == '#'))
  | none => u

/-- `cors(response, env)` from the helpers file: sets the five headers in
source order and returns the (mutated) response. -/
def cors (response : Resp) (env : Env := DEFAULT_ENV) : Resp :=
  let r1 := setHeader response "Content-Type" "text/plain"
  let r2 := setHeader r1 "Access-Control-Allow-Origin" (urlOrigin (IMS_CLI_OAUTH_URL env))
  let r3 := setHeader r2 "Access-Control-Request-Method" "*"
  let r4 := setHeader r3 "Access-Control-Allow-Methods" "OPTIONS, POST"
  setHeader r4 "Access-Control-Allow-Headers" "*"

/-! ## The helpers file: code transform and JSON response envelope -/

/-- A JavaScript value a handler promise can resolve with: the raw code
string, or the object obtained by JSON-parsing an access token. -/
inductive Jsv where
  | vstr (s : String)
  | vjson (j : Json)

/-- `codeTransform(code, codeType)` from the helpers file: when
`codeType === 'access_token'` the code is `JSON.parse`d — with no
`try`/`catch`, so a parse failure is a thrown error (`Except.error`); any
other `codeType` (including `undefined`) returns the code unchanged. -/
def codeTransform (code : String) (codeType : Option String) : Except String Jsv :=
  if codeType = some "access_token" then (jsonParseE code).map Jsv.vjson
  else .ok (.vstr code)

/-- `createJsonResponse({redirect, message, error = false})` composed with
the `JSON.stringify` at its call sites: the source builds the object
`protocol_version`, `redirect`, `error`, `message` in that order, and
`JSON.stringify` then omits the members whose value is `undefined`. -/
def createJsonResponse (redirect : Option String) (message : Option String)
    (error : Bool := false) : Json :=
  Json.obj
    ([("protocol_version", Json.num PROTOCOL_VERSION)]
      ++ (match redirect with | some r => [("redirect", Json.str r)] | none => [])
      ++ [("error", Json.bool error)]
      ++ (match message with | some m => [("message", Json.str m)] | none => []))

/-! ## The helpers file: querystring parsing and request URL stripping -/

/-- Split a character list on `&`. -/
def splitAmp : List Char → List (List Char)
  | [] => [[]]
  | c :: r =>
    let rest := splitAmp r
    if c = '&' then [] :: rest
    else match rest with
      | [] => [[c]]
      | seg :: segs => (c :: seg) :: segs

/-- Split one `key=value` segment at the first `=` (a segment without `=`
gets the empty value). -/
def splitKV (seg : List Char) : String × String :=
  (String.mk (seg.takeWhile fun c => !(c == '=')),
   String.mk ((seg.dropWhile fun c => !(c == '=')).drop 1))

/-- `querystring.parse`: split on `&`, split each nonempty segment at its
first `=`. Two behaviours of the node original are outside this model:
percent and plus decoding of keys and values (the claims quantify over the
decoded payload, so the encoding layer is irrelevant here), and duplicate
keys (which node collects into arrays). -/
def querystringParse (s : String) : List (String × String) :=
  ((splitAmp s.data).filter (fun seg => !seg.isEmpty)).map splitKV

/-- Property lookup on the parsed query data (`queryData.code` etc.):
`none` models `undefined`. -/
def qget (q : List (String × String)) (k : String) : Option String :=
  (q.find? fun p => p.1 == k).map (·.2)

/-- JavaScript truthiness of a `string | undefined` value: `undefined` and
the empty string are falsy. -/
def truthy : Option String → Bool
  | none => false
  | some s => !(s == "")

/-- The `request.url.replace(/^.*\?/, '')` step of `handleGET`: the
regular expression greedily matches from the start of the string up to the
last `?` (a `.` does not match a newline, so only `?`s on the first line
can end the match); with no match the URL is returned unchanged. This
helper returns the characters after that last `?`, or `none` when the
regex does not match. -/
def afterLastQ : List Char → Option (List Char)
  | [] => none
  | c :: rest =>
    if c = '\n' then none
    else
      match afterLastQ rest with
      | some r => some r
      | none => if c = '?' then some rest else none

/-- See `afterLastQ`. -/
def replaceUpToLastQ (s : String) : String :=
  match afterLastQ s.data with
  | some r => String.mk r
  | none => s

/-! ## The helpers file: the GET / POST callback handlers -/

/-- Result of a JavaScript property access that can also throw: reading
`.id` off the parsed `state`. -/
inductive Jprop where
  | undefined
  | val (j : Json)

/-- The thrown message when property access hits `null`. -/
def nullPropErrMsg : String := "TypeError: cannot read properties of null"

/-- JavaScript property read `j[key]` on a `JSON.parse` result: throws on
`null`, looks the key up on objects (last duplicate wins, as in a
JavaScript object literal), and yields `undefined` on every other value. -/
def getProp (j : Json) (key : String) : Except String Jprop :=
  match j with
  | .null => .error nullPropErrMsg
  | .obj ms =>
    .ok (match ms.reverse.find? (fun m => m.1 == key) with
      | some m => .val m.2
      | none => .undefined)
  | _ => .ok .undefined

/-- Strict equality `p === id` between a property value and the expected
id string. -/
def strictEqStr (p : Jprop) (id : String) : Bool :=
  match p with
  | .val (Json.str t) => t == id
  | _ => false

/-- Evaluation of the shared guard `queryData.code && state.id === id`:
`&&` short-circuits, so the (possibly throwing) property access on `state`
only runs when `code` is truthy. -/
def condEval (q : List (String × String)) (id : String) : Except String Bool :=
  if truthy (qget q "code") then
    (getProp (stringToJson (qget q "state")) "id").map fun p => strictEqStr p id
  else .ok false

/-- The observable events of one handler run, in order: promise
resolution/rejection, `response.end`, the `done` callback, or a throw
escaping the handler body (which node surfaces as a rejection of the
`handleGET` promise, and as an unhandled rejection — with the `handlePOST`
promise left forever pending — for the `async` end-listener of
`handlePOST`). -/
inductive Ev where
  | resolved (v : Jsv)
  | rejected (msg : String)
  | threw (msg : String)
  | respEnded
  | doneCalled

/-- A handler run: the final response state and the ordered events. -/
structure HandlerRun where
  resp : Resp
  events : List Ev

/-- The success redirect target. -/
def signedInUrl (env : Env) : String := IMS_CLI_OAUTH_URL env ++ "/signed-in"

/-- The failure redirect target (the message is interpolated verbatim). -/
def errorUrl (env : Env) : String :=
  IMS_CLI_OAUTH_URL env ++ "/error?message=An error occurred in the cli."

/-- Response produced by the success branch of `handleGET`: `cors`, then
`Cache-Control`, then `writeHead(302, Location)`, then `end()`. -/
def getSuccResp (env : Env) : Resp :=
  endBody (writeHead (setHeader (cors Resp.init env) "Cache-Control" "private, no-cache")
    302 [("Location", signedInUrl env)]) none

/-- Response produced by the failure branch of `handleGET`:
`statusCode = 400`, `Cache-Control`, `writeHead(302, Location)`, `end()`. -/
def getFailResp (env : Env) : Resp :=
  endBody (writeHead
    (setHeader { cors Resp.init env with statusCode := 400 } "Cache-Control" "private, no-cache")
    302 [("Location", errorUrl env)]) none

/-- Response produced by the success branch of `handlePOST`:
`statusCode = 200`, `end(JSON.stringify(createJsonResponse({redirect})))`. -/
def postSuccResp (env : Env) : Resp :=
  endBody { cors Resp.init env with statusCode := 200 }
    (some (jsonStringify (createJsonResponse (some (signedInUrl env)) none false)))

/-- Response produced by the failure branch of `handlePOST`:
`statusCode = 400`, `end` with the error envelope. -/
def postFailResp (env : Env) : Resp :=
  endBody { cors Resp.init env with statusCode := 400 }
    (some (jsonStringify (createJsonResponse (some (errorUrl env))
      (some "An error occurred in the cli.") true)))

/-- The shared body of `handleGET` and `handlePOST` (the two functions
duplicate this logic line for line in the source; only the response
construction differs, so it is passed in). On guard success the code is
transformed and the promise resolved, then the response finalized, then
`done()`; on guard failure the response is finalized, the promise rejected
with `error code=<code>`, then `done()`; a throw (from the `null` property
access or from `codeTransform`) escapes before the response is touched and
before `done()`. -/
def runCallback (q : List (String × String)) (id : String)
    (succResp failResp errResp : Resp) : HandlerRun :=
  match condEval q id with
  | .error m => ⟨errResp, [Ev.threw m]⟩
  | .ok false =>
    ⟨failResp,
     [Ev.respEnded, Ev.rejected ("error code=" ++ jsStr (qget q "code")), Ev.doneCalled]⟩
  | .ok true =>
    match codeTransform ((qget q "code").getD "") (qget q "code_type") with
    | .error m => ⟨errResp, [Ev.threw m]⟩
    | .ok v => ⟨succResp, [Ev.resolved v, Ev.respEnded, Ev.doneCalled]⟩

/-- `handleGET(request, response, id, done, env)`: strips the request URL
to the query string, parses it, and runs the shared callback logic with
the GET responses. -/
def handleGET (requestUrl : String) (id : String) (env : Env := DEFAULT_ENV) : HandlerRun :=
  runCallback (querystringParse (replaceUpToLastQ requestUrl)) id
    (getSuccResp env) (getFailResp env) (cors Resp.init env)

/-- `handlePOST(request, response, id, done, env)`: accumulates the body
chunks in order, parses the concatenation on the end-of-stream event, and
runs the shared callback logic with the POST responses. -/
def handlePOST (chunks : List String) (id : String) (env : Env := DEFAULT_ENV) : HandlerRun :=
  runCallback (querystringParse (String.join chunks)) id
    (postSuccResp env) (postFailResp env) (cors Resp.init env)

/-- A handler run that reaches `done()`: the guard evaluates without
throwing, and on guard success the code transform succeeds too. -/
def settlesCleanly (q : List (String × String)) (id : String) : Prop :=
  condEval q id = .ok false ∨
    (condEval q id = .ok true ∧
      (codeTransform ((qget q "code").getD "") (qget q "code_type")).isOk = true)

/-- Keys of a `queryParams` object. -/
def keysOf (ps : List (String × JsParam)) : List String := ps.map (·.1)

/-- The entries of a `queryParams` object whose value is a defined,
non-null string, in order. -/
def keptParams (ps : List (String × JsParam)) : List (String × String) :=
  ps.filterMap fun kv =>
    match kv.2 with
    | .pstr v => some (kv.1, v)
    | _ => none

/-! ## The watcher file: `handleCallback` -/

/-- Outcome of one `handleCallback(url)` call in the watcher file:
the URL is ignored (not on the callback prefix), the app succeeds with the
extracted code, or the evaluation of the guard `error` — an identifier
that is bound nowhere in the file — throws a `ReferenceError`. -/
inductive CbOutcome where
  | ignored
  | succeeded (code : String)
  | threwReferenceError

/-- First match of the regex `code=([^&]*)` in a URL: characters after the
first occurrence of `code=`, up to the next `&`. `none` models a `null`
`exec` result. -/
def extractRawCode : List Char → Option (List Char)
  | [] => none
  | 'c' :: 'o' :: 'd' :: 'e' :: '=' :: rest => some (rest.takeWhile fun c => !(c == '&'))
  | _ :: rest => extractRawCode rest

/-- `handleCallback(url)` from the watcher file. A URL that does not start
with the callback URL is ignored. Otherwise the window is dereferenced and
the code extracted; a truthy (nonempty) code makes the app succeed with
it. In the remaining case — prefix matched but no nonempty code — the
source evaluates `else if (error)`, and `error` is an unbound identifier,
so a `ReferenceError` is thrown: the `Received empty code on callback URL`
failure branch after it is unreachable. -/
def handleCallback (u callbackUrl : String) : CbOutcome :=
  if callbackUrl.data.isPrefixOf u.data then
    match extractRawCode u.data with
    | some code => if code.isEmpty then .threwReferenceError else .succeeded (String.mk code)
    | none => .threwReferenceError
  else .ignored



/-! ### Generic list helper lemmas -/

theorem skipWs_cons_of (c : Char) (l : List Char) (h : isWs c = false) :
    skipWs (c :: l) = c :: l := by simp [skipWs, h]

theorem takeWhile_append_all {α} (p : α → Bool) (l r : List α)
    (hl : ∀ x ∈ l, p x = true) :
    (l ++ r).takeWhile p = l ++ r.takeWhile p := by
  induction l with
  | nil => simp
  | cons x xs ih =>
    have hx := hl x (by simp)
    simp only [List.cons_append, List.takeWhile_cons, hx, if_true]
    rw [ih fun y hy => hl y (by simp [hy])]

theorem dropWhile_append_all {α} (p : α → Bool) (l r : List α)
    (hl : ∀ x ∈ l, p x = true) :
    (l ++ r).dropWhile p = r.dropWhile p := by
  induction l with
  | nil => simp
  | cons x xs ih =>
    have hx := hl x (by simp)
    simp only [List.cons_append, List.dropWhile_cons, hx, if_true]
    exact ih fun y hy => hl y (by simp [hy])

theorem takeWhile_eq_nil_headNot (r : List Char) (h : headNotDigit r = true) :
    r.takeWhile Char.isDigit = [] := by
  cases r with
  | nil => simp
  | cons c t =>
    simp only [headNotDigit, Bool.not_eq_true'] at h
    simp [List.takeWhile_cons, h]

theorem dropWhile_eq_self_headNot (r : List Char) (h : headNotDigit r = true) :
    r.dropWhile Char.isDigit = r := by
  cases r with
  | nil => simp
  | cons c t =>
    simp only [headNotDigit, Bool.not_eq_true'] at h
    simp [List.dropWhile_cons, h]

/-! ### String escaping round trip -/

theorem pStr_plain (c : Char) (rest : List Char) (hq : ¬ c = '"') (hb : ¬ c = '\\')
    (hc : ¬ c.toNat < 32) :
    pStr (c :: rest) = (pStr rest).map fun p => (c :: p.1, p.2) := by
  rw [pStr.eq_def]
  split <;> simp_all

theorem hexDigit?_hexChar (n : Nat) (h : n < 16) : hexDigit? (hexChar n) = some n := by
  interval_cases n <;> rfl

theorem pStr_escStr (cs rest : List Char) :
    pStr (escStr cs ++ '"' :: rest) = some (cs, rest) := by
  induction cs with
  | nil => rfl
  | cons c t ih =>
    by_cases hq : c = '"'
    · subst hq
      show pStr ('\\' :: '"' :: (escStr t ++ '"' :: rest)) = _
      show (pStr (escStr t ++ '"' :: rest)).map (fun p => ('"' :: p.1, p.2)) = _
      rw [ih]
      rfl
    · by_cases hb : c = '\\'
      · subst hb
        show pStr ('\\' :: '\\' :: (escStr t ++ '"' :: rest)) = _
        show (pStr (escStr t ++ '"' :: rest)).map (fun p => ('\\' :: p.1, p.2)) = _
        rw [ih]
        rfl
      · by_cases hc : c.toNat < 32
        · show pStr (escCh c ++ escStr t ++ '"' :: rest) = _
          rw [show escCh c = ['\\', 'u', '0', '0', hexChar (c.toNat / 16), hexChar (c.toNat % 16)]
            from by rw [escCh, if_neg hq, if_neg hb, if_pos hc]]
          show (match hexDigit? '0', hexDigit? '0', hexDigit? (hexChar (c.toNat / 16)),
              hexDigit? (hexChar (c.toNat % 16)) with
            | some ha, some hb, some hc2, some hd =>
              (pStr (escStr t ++ '"' :: rest)).map fun (p : List Char × List Char) =>
                (Char.ofNat (((ha * 16 + hb) * 16 + hc2) * 16 + hd) :: p.1, p.2)
            | _, _, _, _ => none) = _
          rw [hexDigit?_hexChar (c.toNat / 16) (by omega), hexDigit?_hexChar (c.toNat % 16) (by omega)]
          show (pStr (escStr t ++ '"' :: rest)).map (fun p =>
            (Char.ofNat (((0 * 16 + 0) * 16 + c.toNat / 16) * 16 + c.toNat % 16) :: p.1, p.2)) = _
          rw [ih]
          have h16 : ((0 * 16 + 0) * 16 + c.toNat / 16) * 16 + c.toNat % 16 = c.toNat := by omega
          rw [h16, Char.ofNat_toNat]
          rfl
        · show pStr (escCh c ++ escStr t ++ '"' :: rest) = _
          rw [show escCh c = [c] from by rw [escCh, if_neg hq, if_neg hb, if_neg hc]]
          rw [List.cons_append, List.nil_append, List.cons_append]
          rw [pStr_plain c (escStr t ++ '"' :: rest) hq hb hc, ih]
          rfl

/-! ### Number printing round trip -/

theorem natToChars_ne_nil (n : Nat) : natToChars n ≠ [] := by
  rw [natToChars]
  split <;> simp

theorem digitChar_isDigit (m : Nat) (h : m < 10) : (Char.ofNat (48 + m)).isDigit = true := by
  interval_cases m <;> decide

theorem digitChar_val (m : Nat) (h : m < 10) : digitVal (Char.ofNat (48 + m)) = m := by
  interval_cases m <;> decide

theorem natToChars_all_digit (n : Nat) : ∀ c ∈ natToChars n, c.isDigit = true := by
  induction n using Nat.strong_induction_on with
  | _ n ih =>
    rw [natToChars]
    split
    · intro c hc
      simp at hc
      subst hc
      exact digitChar_isDigit n (by omega)
    · intro c hc
      rw [List.mem_append] at hc
      rcases hc with hc | hc
      · exact ih (n / 10) (Nat.div_lt_self (by omega) (by omega)) c hc
      · simp at hc
        subst hc
        exact digitChar_isDigit (n % 10) (by omega)

theorem foldl_digits (n : Nat) : ∀ a : Nat,
    (natToChars n).foldl (fun a c => 10 * a + digitVal c) a
      = a * 10 ^ (natToChars n).length + n := by
  induction n using Nat.strong_induction_on with
  | _ n ih =>
    intro a
    rw [natToChars]
    split
    next h =>
      simp [digitChar_val n h]
      ring
    next h =>
      rw [List.foldl_append, List.length_append]
      rw [ih (n / 10) (Nat.div_lt_self (by omega) (by omega))]
      simp [digitChar_val (n % 10) (by omega)]
      rw [Nat.pow_succ]
      have hh : 10 * (a * 10 ^ (natToChars (n / 10)).length + n / 10) + n % 10
          = a * (10 ^ (natToChars (n / 10)).length * 10) + (10 * (n / 10) + n % 10) := by ring
      rw [hh, Nat.div_add_mod]

theorem pNat_natToChars (n : Nat) (rest : List Char) (h : headNotDigit rest = true) :
    pNat (natToChars n ++ rest) = some (n, rest) := by
  have htw : (natToChars n ++ rest).takeWhile Char.isDigit = natToChars n := by
    rw [takeWhile_append_all Char.isDigit _ _ (natToChars_all_digit n),
      takeWhile_eq_nil_headNot rest h, List.append_nil]
  have hdw : (natToChars n ++ rest).dropWhile Char.isDigit = rest := by
    rw [dropWhile_append_all Char.isDigit _ _ (natToChars_all_digit n),
      dropWhile_eq_self_headNot rest h]
  rw [pNat]
  simp only [htw, hdw, if_neg (natToChars_ne_nil n)]
  rw [foldl_digits n 0]
  simp



/-! ### Head-character facts for the parser dispatch -/

theorem digit_ne (c L : Char) (hd : c.isDigit = true) (hL : L.isDigit = false) :
    ¬ c = L := by
  intro h
  rw [h, hL] at hd
  exact Bool.false_ne_true hd

theorem digit_not_ws (c : Char) (hd : c.isDigit = true) : isWs c = false := by
  have h1 := digit_ne c ' ' hd (by decide)
  have h2 := digit_ne c '\t' hd (by decide)
  have h3 := digit_ne c '\n' hd (by decide)
  have h4 := digit_ne c '\r' hd (by decide)
  simp [isWs, h1, h2, h3, h4]

theorem natToChars_head (n : Nat) :
    ∃ c t, natToChars n = c :: t ∧ c.isDigit = true := by
  cases h : natToChars n with
  | nil => exact absurd h (natToChars_ne_nil n)
  | cons c t =>
    exact ⟨c, t, rfl, natToChars_all_digit n c (by rw [h]; simp)⟩

theorem intToChars_head (n : Int) :
    ∃ c t, intToChars n = c :: t ∧ (c = '-' ∨ c.isDigit = true) := by
  by_cases hn : n < 0
  · exact ⟨'-', natToChars n.natAbs, by rw [intToChars, if_pos hn], Or.inl rfl⟩
  · obtain ⟨c, t, hct, hd⟩ := natToChars_head n.natAbs
    exact ⟨c, t, by rw [intToChars, if_neg hn, hct], Or.inr hd⟩

theorem emitV_head (j : Json) :
    ∃ c l, emitV j = c :: l ∧ isWs c = false ∧ ¬ c = ']' ∧ ¬ c = '}' := by
  cases j with
  | null => exact ⟨'n', ['u', 'l', 'l'], by simp [emitV], by decide, by decide, by decide⟩
  | bool b =>
    cases b
    · exact ⟨'f', ['a', 'l', 's', 'e'], by simp [emitV], by decide, by decide, by decide⟩
    · exact ⟨'t', ['r', 'u', 'e'], by simp [emitV], by decide, by decide, by decide⟩
  | num n =>
    obtain ⟨c, t, hct, hc⟩ := intToChars_head n
    refine ⟨c, t, by rw [show emitV (Json.num n) = intToChars n from by simp [emitV], hct], ?_, ?_, ?_⟩
    · rcases hc with h | h
      · subst h; decide
      · exact digit_not_ws c h
    · rcases hc with h | h
      · subst h; decide
      · exact digit_ne c ']' h (by decide)
    · rcases hc with h | h
      · subst h; decide
      · exact digit_ne c '}' h (by decide)
  | str s =>
    exact ⟨'"', escStr s.data ++ ['"'], by simp [emitV], by decide, by decide, by decide⟩
  | arr es =>
    cases es with
    | nil => exact ⟨'[', [']'], by simp [emitV], by decide, by decide, by decide⟩
    | cons x xs =>
      exact ⟨'[', emitElems x xs ++ [']'], by simp [emitV], by decide, by decide, by decide⟩
  | obj ms =>
    cases ms with
    | nil => exact ⟨'{', ['}'], by simp [emitV], by decide, by decide, by decide⟩
    | cons m ms2 =>
      exact ⟨'{', emitMembers m ms2 ++ ['}'], by simp [emitV], by decide, by decide, by decide⟩

/-! ### Parser step lemmas -/

theorem pValue_num_head (f : Nat) (c : Char) (l : List Char)
    (h : c = '-' ∨ c.isDigit = true) :
    pValue (f + 1) (c :: l) = pNum (c :: l) := by
  rcases h with h | h
  · subst h; rfl
  · have hws := digit_not_ws c h
    rw [pValue.eq_def]
    simp only [skipWs_cons_of c l hws]
    simp only [digit_ne c 'n' h (by decide), digit_ne c 't' h (by decide),
      digit_ne c 'f' h (by decide), digit_ne c '"' h (by decide),
      digit_ne c '[' h (by decide), digit_ne c '{' h (by decide),
      if_false, h, Bool.or_true, if_true]

theorem pValue_arr_step (f : Nat) (c : Char) (l : List Char)
    (hws : isWs c = false) (hne : ¬ c = ']') :
    pValue (f + 1) ('[' :: c :: l) = (pElems f (c :: l)).map fun p => (Json.arr p.1, p.2) := by
  have h2 : skipWs (c :: l) = c :: l := skipWs_cons_of _ _ hws
  show (match skipWs (c :: l) with
    | [] => none
    | c2 :: r2 =>
      if c2 = ']' then some (Json.arr [], r2)
      else (pElems f (c2 :: r2)).map fun (p : List Json × List Char) => (Json.arr p.1, p.2)) = _
  rw [h2]
  simp [hne]

theorem pValue_obj_step (f : Nat) (c : Char) (l : List Char)
    (hws : isWs c = false) (hne : ¬ c = '}') :
    pValue (f + 1) ('{' :: c :: l)
      = (pMembers f (c :: l)).map fun p => (Json.obj p.1, p.2) := by
  have h2 : skipWs (c :: l) = c :: l := skipWs_cons_of _ _ hws
  show (match skipWs (c :: l) with
    | [] => none
    | c2 :: r2 =>
      if c2 = '}' then some (Json.obj [], r2)
      else (pMembers f (c2 :: r2)).map
        fun (p : List (String × Json) × List Char) => (Json.obj p.1, p.2)) = _
  rw [h2]
  simp [hne]

theorem pElems_succ (f : Nat) (cs : List Char) :
    pElems (f + 1) cs
      = match pValue f cs with
        | none => none
        | some (v, r) =>
          match skipWs r with
          | [] => none
          | c :: r2 =>
            if c = ',' then (pElems f r2).map fun p => (v :: p.1, p.2)
            else if c = ']' then some ([v], r2)
            else none := rfl

theorem pMembers_succ (f : Nat) (cs : List Char) :
    pMembers (f + 1) cs
      = match skipWs cs with
        | [] => none
        | c :: r =>
          if c = '"' then
            match pStr r with
            | none => none
            | some (k, r2) =>
              match skipWs r2 with
              | [] => none
              | c2 :: r3 =>
                if c2 = ':' then
                  match pValue f r3 with
                  | none => none
                  | some (v, r4) =>
                    match skipWs r4 with
                    | [] => none
                    | c3 :: r5 =>
                      if c3 = ',' then
                        (pMembers f r5).map fun p => ((String.mk k, v) :: p.1, p.2)
                      else if c3 = '}' then some ([(String.mk k, v)], r5)
                      else none
                else none
          else none := rfl

theorem pNum_intToChars (n : Int) (rest : List Char) (h : headNotDigit rest = true) :
    pNum (intToChars n ++ rest) = some (Json.num n, rest) := by
  by_cases hn : n < 0
  · have hsplit : intToChars n ++ rest = '-' :: (natToChars n.natAbs ++ rest) := by
      rw [intToChars, if_pos hn, List.cons_append]
    rw [hsplit, pNum, if_pos rfl, pNat_natToChars _ _ h]
    simp only [Option.map_some']
    have hv : -((n.natAbs : Nat) : Int) = n := by omega
    rw [hv]
  · obtain ⟨c, t, hct, hd⟩ := natToChars_head n.natAbs
    have hsplit : intToChars n ++ rest = c :: (t ++ rest) := by
      rw [intToChars, if_neg hn, hct, List.cons_append]
    rw [hsplit, pNum, if_neg (digit_ne c '-' hd (by decide))]
    rw [← List.cons_append, ← hct, pNat_natToChars _ _ h]
    simp only [Option.map_some']
    have hv : ((n.natAbs : Nat) : Int) = n := by omega
    rw [hv]



/-! ### The parser inverts the serializer -/

mutual

theorem pValue_emitV (j : Json) (f : Nat) (rest : List Char)
    (hf : fuelV j ≤ f) (hr : headNotDigit rest = true) :
    pValue f (emitV j ++ rest) = some (j, rest) := by
  cases j with
  | null =>
    simp only [fuelV] at hf
    obtain ⟨f', rfl⟩ : ∃ f', f = f' + 1 := ⟨f - 1, by omega⟩
    rw [show emitV Json.null = ['n', 'u', 'l', 'l'] from by simp [emitV]]
    rfl
  | bool b =>
    simp only [fuelV] at hf
    obtain ⟨f', rfl⟩ : ∃ f', f = f' + 1 := ⟨f - 1, by omega⟩
    cases b
    · rw [show emitV (Json.bool false) = ['f', 'a', 'l', 's', 'e'] from by simp [emitV]]
      rfl
    · rw [show emitV (Json.bool true) = ['t', 'r', 'u', 'e'] from by simp [emitV]]
      rfl
  | num n =>
    simp only [fuelV] at hf
    obtain ⟨f', rfl⟩ : ∃ f', f = f' + 1 := ⟨f - 1, by omega⟩
    rw [show emitV (Json.num n) = intToChars n from by simp [emitV]]
    obtain ⟨c, t, hct, hc⟩ := intToChars_head n
    rw [hct, List.cons_append, pValue_num_head f' c (t ++ rest) hc, ← List.cons_append, ← hct]
    exact pNum_intToChars n rest hr
  | str s =>
    simp only [fuelV] at hf
    obtain ⟨f', rfl⟩ : ∃ f', f = f' + 1 := ⟨f - 1, by omega⟩
    rw [show emitV (Json.str s) = '"' :: (escStr s.data ++ ['"']) from by simp [emitV]]
    rw [List.cons_append, List.append_assoc, List.singleton_append]
    show (pStr (escStr s.data ++ '"' :: rest)).map
      (fun p => (Json.str (String.mk p.1), p.2)) = _
    rw [pStr_escStr]
    rfl
  | arr es =>
    cases es with
    | nil =>
      simp only [fuelV] at hf
      obtain ⟨f', rfl⟩ : ∃ f', f = f' + 1 := ⟨f - 1, by omega⟩
      rw [show emitV (Json.arr []) = ['[', ']'] from by simp [emitV]]
      rfl
    | cons x xs =>
      simp only [fuelV] at hf
      obtain ⟨f', rfl⟩ : ∃ f', f = f' + 1 := ⟨f - 1, by omega⟩
      rw [show emitV (Json.arr (x :: xs)) = '[' :: (emitElems x xs ++ [']'])
        from by simp [emitV]]
      rw [List.cons_append, List.append_assoc, List.singleton_append]
      obtain ⟨c, l, hcl, hws, hbr, _⟩ := emitV_head x
      obtain ⟨l2, hl2⟩ : ∃ l2, emitElems x xs ++ ']' :: rest = c :: l2 := by
        cases xs with
        | nil =>
          exact ⟨l ++ ']' :: rest, by
            rw [show emitElems x [] = emitV x from by simp [emitElems], hcl, List.cons_append]⟩
        | cons y ys =>
          exact ⟨(l ++ ',' :: emitElems y ys) ++ ']' :: rest, by
            rw [show emitElems x (y :: ys) = emitV x ++ ',' :: emitElems y ys
              from by simp [emitElems], hcl]
            simp [List.cons_append, List.append_assoc]⟩
      rw [hl2, pValue_arr_step f' c l2 hws hbr, ← hl2]
      rw [pElems_emit x xs f' rest (by omega)]
      rfl
  | obj ms =>
    cases ms with
    | nil =>
      simp only [fuelV] at hf
      obtain ⟨f', rfl⟩ : ∃ f', f = f' + 1 := ⟨f - 1, by omega⟩
      rw [show emitV (Json.obj []) = ['{', '}'] from by simp [emitV]]
      rfl
    | cons m ms2 =>
      simp only [fuelV] at hf
      obtain ⟨f', rfl⟩ : ∃ f', f = f' + 1 := ⟨f - 1, by omega⟩
      rw [show emitV (Json.obj (m :: ms2)) = '{' :: (emitMembers m ms2 ++ ['}'])
        from by simp [emitV]]
      rw [List.cons_append, List.append_assoc, List.singleton_append]
      obtain ⟨l2, hl2⟩ : ∃ l2, emitMembers m ms2 ++ '}' :: rest = '"' :: l2 := by
        cases ms2 with
        | nil =>
          exact ⟨(escStr m.1.data ++ '"' :: ':' :: emitV m.2) ++ '}' :: rest, by
            rw [show emitMembers m [] = emitMember m from by simp [emitMembers]]
            rw [show emitMember m = '"' :: (escStr m.1.data ++ '"' :: ':' :: emitV m.2)
              from by obtain ⟨k, v⟩ := m; simp [emitMember], List.cons_append]⟩
        | cons m2 ms3 =>
          exact ⟨(escStr m.1.data ++ '"' :: ':' :: emitV m.2 ++ ',' :: emitMembers m2 ms3)
              ++ '}' :: rest, by
            rw [show emitMembers m (m2 :: ms3) = emitMember m ++ ',' :: emitMembers m2 ms3
              from by simp [emitMembers]]
            rw [show emitMember m = '"' :: (escStr m.1.data ++ '"' :: ':' :: emitV m.2)
              from by obtain ⟨k, v⟩ := m; simp [emitMember]]
            simp [List.cons_append, List.append_assoc]⟩
      rw [hl2, pValue_obj_step f' '"' l2 (by decide) (by decide), ← hl2]
      rw [pMembers_emit m ms2 f' rest (by omega)]
      rfl
termination_by f
decreasing_by all_goals omega

theorem pElems_emit (x : Json) (xs : List Json) (f : Nat) (rest : List Char)
    (hf : fuelElems x xs ≤ f) :
    pElems f (emitElems x xs ++ ']' :: rest) = some (x :: xs, rest) := by
  cases xs with
  | nil =>
    simp only [fuelElems] at hf
    obtain ⟨f', rfl⟩ : ∃ f', f = f' + 1 := ⟨f - 1, by omega⟩
    rw [show emitElems x [] = emitV x from by simp [emitElems]]
    rw [pElems_succ, pValue_emitV x f' (']' :: rest) (by omega) rfl]
    rfl
  | cons y ys =>
    simp only [fuelElems] at hf
    obtain ⟨f', rfl⟩ : ∃ f', f = f' + 1 := ⟨f - 1, by omega⟩
    rw [show emitElems x (y :: ys) = emitV x ++ ',' :: emitElems y ys
      from by simp [emitElems]]
    rw [List.append_assoc, List.cons_append]
    rw [pElems_succ,
      pValue_emitV x f' (',' :: (emitElems y ys ++ ']' :: rest)) (by omega) rfl]
    show (pElems f' (emitElems y ys ++ ']' :: rest)).map
      (fun p => (x :: p.1, p.2)) = _
    rw [pElems_emit y ys f' rest (by omega)]
    rfl
termination_by f
decreasing_by all_goals omega

theorem pMembers_emit (m : String × Json) (ms : List (String × Json)) (f : Nat)
    (rest : List Char) (hf : fuelMembers m ms ≤ f) :
    pMembers f (emitMembers m ms ++ '}' :: rest) = some (m :: ms, rest) := by
  obtain ⟨k, v⟩ := m
  cases ms with
  | nil =>
    simp only [fuelMembers] at hf
    obtain ⟨f', rfl⟩ : ∃ f', f = f' + 1 := ⟨f - 1, by omega⟩
    rw [show emitMembers (k, v) [] = emitMember (k, v) from by simp [emitMembers]]
    rw [show emitMember (k, v) = '"' :: (escStr k.data ++ '"' :: ':' :: emitV v)
      from by simp [emitMember]]
    rw [List.cons_append, List.append_assoc]
    rw [pMembers_succ]
    show (match pStr (escStr k.data ++ ('"' :: ':' :: emitV v ++ '}' :: rest)) with
      | none => none
      | some (k2, r2) =>
        match skipWs r2 with
        | [] => none
        | c2 :: r3 =>
          if c2 = ':' then
            match pValue f' r3 with
            | none => none
            | some (v2, r4) =>
              match skipWs r4 with
              | [] => none
              | c3 :: r5 =>
                if c3 = ',' then
                  (pMembers f' r5).map
                    fun (p : List (String × Json) × List Char) =>
                      ((String.mk k2, v2) :: p.1, p.2)
                else if c3 = '}' then some ([(String.mk k2, v2)], r5)
                else none
          else none) = _
    rw [show ('"' :: ':' :: emitV v ++ '}' :: rest)
        = '"' :: ':' :: (emitV v ++ '}' :: rest) from by simp]
    rw [pStr_escStr]
    show (match pValue f' (emitV v ++ '}' :: rest) with
      | none => none
      | some (v2, r4) =>
        match skipWs r4 with
        | [] => none
        | c3 :: r5 =>
          if c3 = ',' then
            (pMembers f' r5).map
              fun (p : List (String × Json) × List Char) =>
                ((String.mk k.data, v2) :: p.1, p.2)
          else if c3 = '}' then some ([(String.mk k.data, v2)], r5)
          else none) = _
    rw [pValue_emitV v f' ('}' :: rest) (by omega) rfl]
    rfl
  | cons m2 ms3 =>
    simp only [fuelMembers] at hf
    obtain ⟨f', rfl⟩ : ∃ f', f = f' + 1 := ⟨f - 1, by omega⟩
    rw [show emitMembers (k, v) (m2 :: ms3) = emitMember (k, v) ++ ',' :: emitMembers m2 ms3
      from by simp [emitMembers]]
    rw [show emitMember (k, v) = '"' :: (escStr k.data ++ '"' :: ':' :: emitV v)
      from by simp [emitMember]]
    rw [List.append_assoc, List.cons_append, List.append_assoc]
    rw [pMembers_succ]
    show (match pStr (escStr k.data ++ ('"' :: ':' :: emitV v ++
        (',' :: emitMembers m2 ms3 ++ '}' :: rest))) with
      | none => none
      | some (k2, r2) =>
        match skipWs r2 with
        | [] => none
        | c2 :: r3 =>
          if c2 = ':' then
            match pValue f' r3 with
            | none => none
            | some (v2, r4) =>
              match skipWs r4 with
              | [] => none
              | c3 :: r5 =>
                if c3 = ',' then
                  (pMembers f' r5).map
                    fun (p : List (String × Json) × List Char) =>
                      ((String.mk k2, v2) :: p.1, p.2)
                else if c3 = '}' then some ([(String.mk k2, v2)], r5)
                else none
          else none) = _
    rw [show ('"' :: ':' :: emitV v ++ (',' :: emitMembers m2 ms3 ++ '}' :: rest))
        = '"' :: ':' :: (emitV v ++ (',' :: (emitMembers m2 ms3 ++ '}' :: rest)))
      from by simp]
    rw [pStr_escStr]
    show (match pValue f' (emitV v ++ ',' :: (emitMembers m2 ms3 ++ '}' :: rest)) with
      | none => none
      | some (v2, r4) =>
        match skipWs r4 with
        | [] => none
        | c3 :: r5 =>
          if c3 = ',' then
            (pMembers f' r5).map
              fun (p : List (String × Json) × List Char) =>
                ((String.mk k.data, v2) :: p.1, p.2)
          else if c3 = '}' then some ([(String.mk k.data, v2)], r5)
          else none) = _
    rw [pValue_emitV v f' (',' :: (emitMembers m2 ms3 ++ '}' :: rest)) (by omega) rfl]
    show (pMembers f' (emitMembers m2 ms3 ++ '}' :: rest)).map
      (fun p => ((String.mk k.data, v) :: p.1, p.2)) = _
    rw [pMembers_emit m2 ms3 f' rest (by omega)]
    rfl
termination_by f
decreasing_by all_goals omega

end



/-! ### Fuel bounds and the top-level round trip -/

theorem emitV_len_pos (j : Json) : 1 ≤ (emitV j).length := by
  obtain ⟨c, l, hcl, -, -, -⟩ := emitV_head j
  rw [hcl]
  simp

mutual

theorem fuelV_le : (j : Json) → fuelV j ≤ (emitV j).length
  | .null => by simp [fuelV, emitV]
  | .bool true => by simp [fuelV, emitV]
  | .bool false => by simp [fuelV, emitV]
  | .num n => by
    have := emitV_len_pos (Json.num n)
    simp only [fuelV]
    omega
  | .str s => by
    have := emitV_len_pos (Json.str s)
    simp only [fuelV]
    omega
  | .arr [] => by simp [fuelV, emitV]
  | .arr (x :: xs) => by
    have h := fuelElems_le x xs
    simp only [fuelV, show emitV (Json.arr (x :: xs)) = '[' :: (emitElems x xs ++ [']'])
      from by simp [emitV], List.length_cons, List.length_append, List.length_singleton]
    omega
  | .obj [] => by simp [fuelV, emitV]
  | .obj (m :: ms) => by
    have h := fuelMembers_le m ms
    simp only [fuelV, show emitV (Json.obj (m :: ms)) = '{' :: (emitMembers m ms ++ ['}'])
      from by simp [emitV], List.length_cons, List.length_append, List.length_singleton]
    omega
termination_by j => sizeOf j

theorem fuelElems_le : (x : Json) → (xs : List Json) →
    fuelElems x xs ≤ (emitElems x xs).length + 1
  | x, [] => by
    have h := fuelV_le x
    simp only [fuelElems, show emitElems x [] = emitV x from by simp [emitElems]]
    omega
  | x, y :: ys => by
    have h1 := fuelV_le x
    have h2 := fuelElems_le y ys
    have h3 := emitV_len_pos x
    simp only [fuelElems, show emitElems x (y :: ys) = emitV x ++ ',' :: emitElems y ys
      from by simp [emitElems], List.length_append, List.length_cons]
    omega
termination_by x xs => 1 + sizeOf x + sizeOf xs

theorem fuelMembers_le : (m : String × Json) → (ms : List (String × Json)) →
    fuelMembers m ms ≤ (emitMembers m ms).length + 1
  | (k, v), [] => by
    have h := fuelV_le v
    simp only [fuelMembers, show emitMembers (k, v) [] = emitMember (k, v)
      from by simp [emitMembers],
      show emitMember (k, v) = '"' :: (escStr k.data ++ '"' :: ':' :: emitV v)
      from by simp [emitMember], List.length_cons, List.length_append]
    omega
  | (k, v), m2 :: ms2 => by
    have h1 := fuelV_le v
    have h2 := fuelMembers_le m2 ms2
    simp only [fuelMembers, show emitMembers (k, v) (m2 :: ms2)
        = emitMember (k, v) ++ ',' :: emitMembers m2 ms2 from by simp [emitMembers],
      show emitMember (k, v) = '"' :: (escStr k.data ++ '"' :: ':' :: emitV v)
      from by simp [emitMember], List.length_cons, List.length_append]
    omega
termination_by m ms => 1 + sizeOf m + sizeOf ms

end

/-- The serializer-parser round trip on JSON values. -/
theorem jsonParseE_stringify (j : Json) : jsonParseE (jsonStringify j) = .ok j := by
  show (match pValue ((emitV j).length + 1) (emitV j) with
    | some (j2, r) => if skipWs r = [] then Except.ok j2 else Except.error jsonErrMsg
    | none => Except.error jsonErrMsg) = Except.ok j
  have hfuel : fuelV j ≤ (emitV j).length + 1 := le_trans (fuelV_le j) (by omega)
  have h := pValue_emitV j ((emitV j).length + 1) [] hfuel rfl
  rw [List.append_nil] at h
  rw [h]
  rfl

/-- `jsonParseE` only ever throws the one modelled message. -/
theorem jsonParseE_error_msg (s : String) (e : String) (h : jsonParseE s = .error e) :
    e = jsonErrMsg := by
  unfold jsonParseE at h
  split at h
  · split at h
    · exact absurd h (by simp)
    · injection h with h2
      exact h2.symm
  · injection h with h2
    exact h2.symm

theorem jsonParseE_not_ok (s : String) (h : (jsonParseE s).isOk = false) :
    jsonParseE s = .error jsonErrMsg := by
  cases heq : jsonParseE s with
  | ok j =>
    rw [heq] at h
    simp [Except.isOk, Except.toBool] at h
  | error e =>
    rw [jsonParseE_error_msg s e heq]



/-! ### Helper lemmas about the handler guard and the shared handler body -/

theorem strictEqStr_eq_true (p : Jprop) (id : String) (h : strictEqStr p id = true) :
    p = Jprop.val (Json.str id) := by
  cases p with
  | undefined => exact absurd h (by simp [strictEqStr])
  | val j =>
    cases j with
    | str t =>
      simp only [strictEqStr, beq_iff_eq] at h
      rw [h]
    | null => exact absurd h (by simp [strictEqStr])
    | bool b => exact absurd h (by simp [strictEqStr])
    | num n => exact absurd h (by simp [strictEqStr])
    | arr es => exact absurd h (by simp [strictEqStr])
    | obj ms => exact absurd h (by simp [strictEqStr])

theorem exceptJsv_isOk_exists (e : Except String Jsv) (h : e.isOk = true) :
    ∃ v, e = .ok v := by
  cases e with
  | ok v => exact ⟨v, rfl⟩
  | error m => simp [Except.isOk, Except.toBool] at h

theorem condEval_ok_true (q : List (String × String)) (id : String)
    (h : condEval q id = .ok true) :
    truthy (qget q "code") = true ∧
      getProp (stringToJson (qget q "state")) "id"
        = Except.ok (Jprop.val (Json.str id)) := by
  by_cases ht : truthy (qget q "code") = true
  · refine ⟨ht, ?_⟩
    rw [condEval, if_pos ht] at h
    cases hg : getProp (stringToJson (qget q "state")) "id" with
    | error m => rw [hg] at h; exact absurd h (by simp [Except.map])
    | ok p =>
      rw [hg] at h
      simp only [Except.map, Except.ok.injEq] at h
      rw [strictEqStr_eq_true p id h]
  · rw [condEval, if_neg ht] at h
    exact absurd h (by simp)

theorem condEval_of_parts (q : List (String × String)) (id : String)
    (ht : truthy (qget q "code") = true)
    (hg : getProp (stringToJson (qget q "state")) "id"
      = Except.ok (Jprop.val (Json.str id))) :
    condEval q id = .ok true := by
  rw [condEval, if_pos ht, hg]
  simp [Except.map, strictEqStr]

theorem runCallback_fail (q : List (String × String)) (id : String)
    (sr fr er : Resp) (h : condEval q id = .ok false) :
    runCallback q id sr fr er
      = ⟨fr, [Ev.respEnded, Ev.rejected ("error code=" ++ jsStr (qget q "code")),
          Ev.doneCalled]⟩ := by
  unfold runCallback
  rw [h]

theorem runCallback_succ (q : List (String × String)) (id : String)
    (sr fr er : Resp) (v : Jsv) (h : condEval q id = .ok true)
    (hct : codeTransform ((qget q "code").getD "") (qget q "code_type") = .ok v) :
    runCallback q id sr fr er
      = ⟨sr, [Ev.resolved v, Ev.respEnded, Ev.doneCalled]⟩ := by
  unfold runCallback
  rw [h, hct]

theorem runCallback_transform_threw (q : List (String × String)) (id : String)
    (sr fr er : Resp) (m : String) (h : condEval q id = .ok true)
    (hct : codeTransform ((qget q "code").getD "") (qget q "code_type") = .error m) :
    runCallback q id sr fr er = ⟨er, [Ev.threw m]⟩ := by
  unfold runCallback
  rw [h, hct]

theorem runCallback_guard_threw (q : List (String × String)) (id : String)
    (sr fr er : Resp) (m : String) (h : condEval q id = .error m) :
    runCallback q id sr fr er = ⟨er, [Ev.threw m]⟩ := by
  unfold runCallback
  rw [h]

theorem runCallback_resolved_iff (q : List (String × String)) (id : String)
    (sr fr er : Resp) :
    (∃ v, Ev.resolved v ∈ (runCallback q id sr fr er).events) ↔
      (truthy (qget q "code") = true ∧
       getProp (stringToJson (qget q "state")) "id"
         = Except.ok (Jprop.val (Json.str id)) ∧
       (codeTransform ((qget q "code").getD "") (qget q "code_type")).isOk = true) := by
  constructor
  · rintro ⟨v, hv⟩
    cases hcond : condEval q id with
    | error m =>
      rw [runCallback_guard_threw q id sr fr er m hcond] at hv
      simp at hv
    | ok b =>
      cases b
      · rw [runCallback_fail q id sr fr er hcond] at hv
        simp at hv
      · obtain ⟨ht, hg⟩ := condEval_ok_true q id hcond
        cases hct : codeTransform ((qget q "code").getD "") (qget q "code_type") with
        | error m =>
          rw [runCallback_transform_threw q id sr fr er m hcond hct] at hv
          simp at hv
        | ok v2 => exact ⟨ht, hg, rfl⟩
  · rintro ⟨ht, hg, hok⟩
    obtain ⟨v, hv⟩ := exceptJsv_isOk_exists _ hok
    rw [runCallback_succ q id sr fr er v (condEval_of_parts q id ht hg) hv]
    exact ⟨v, by simp⟩

/-! ### Helper lemmas for the URL query stripping -/

theorem afterLastQ_none (s : List Char) (h : '?' ∉ s) : afterLastQ s = none := by
  induction s with
  | nil => rfl
  | cons c t ih =>
    have hc : ¬ c = '?' := fun e => h (by rw [e]; exact List.mem_cons_self _ _)
    have ht : '?' ∉ t := fun m => h (List.mem_cons_of_mem c m)
    rw [afterLastQ]
    by_cases hn : c = '\n'
    · rw [if_pos hn]
    · rw [if_neg hn, ih ht, if_neg hc]

theorem afterLastQ_last (a b : List Char) (ha : '\n' ∉ a) (hb : '?' ∉ b) :
    afterLastQ (a ++ '?' :: b) = some b := by
  induction a with
  | nil =>
    show afterLastQ ('?' :: b) = some b
    rw [afterLastQ, if_neg (by decide), afterLastQ_none b hb]
    rfl
  | cons c t ih =>
    have hc : ¬ c = '\n' := fun e => ha (by rw [e]; exact List.mem_cons_self _ _)
    rw [List.cons_append, afterLastQ, if_neg hc,
      ih (fun m => ha (List.mem_cons_of_mem c m))]

/-! ### Helper lemmas for `authSiteUrl` -/

theorem spSet_append (acc : List (String × String)) (k v : String)
    (h : ∀ p ∈ acc, p.1 ≠ k) :
    spSet acc k v = acc ++ [(k, v)] := by
  have hany : acc.any (fun p => p.1 == k) = false := by
    rw [List.any_eq_false]
    intro p hp
    simp only [beq_iff_eq]
    exact h p hp
  rw [spSet, hany]
  simp

theorem authSiteUrl_foldl (params : List (String × JsParam)) :
    ∀ acc : List (String × String),
      (keysOf params).Nodup →
      (∀ k ∈ acc.map Prod.fst, ∀ q ∈ params, q.1 ≠ k) →
      params.foldl
        (fun acc kv =>
          match kv.2 with
          | .pstr v => spSet acc kv.1 v
          | _ => acc) acc
        = acc ++ keptParams params := by
  induction params with
  | nil =>
    intro acc _ _
    simp [keptParams]
  | cons q qs ih =>
    intro acc hnd hdisj
    obtain ⟨k, pv⟩ := q
    simp only [keysOf, List.map_cons, List.nodup_cons] at hnd
    obtain ⟨hk, hnd2⟩ := hnd
    cases pv with
    | pstr v =>
      simp only [List.foldl_cons]
      rw [spSet_append acc k v
        (fun p hp => Ne.symm (hdisj p.1 (List.mem_map_of_mem Prod.fst hp)
          (k, JsParam.pstr v) (List.mem_cons_self _ _)))]
      rw [ih (acc ++ [(k, v)]) hnd2 ?_]
      · simp [keptParams, List.append_assoc]
      · intro k2 hk2 q2 hq2
        rw [List.map_append] at hk2
        rcases List.mem_append.mp hk2 with h2 | h2
        · exact hdisj k2 h2 q2 (List.mem_cons_of_mem _ hq2)
        · simp at h2
          subst h2
          intro he
          exact hk (by rw [← he]; exact List.mem_map_of_mem Prod.fst hq2)
    | pUndefined =>
      simp only [List.foldl_cons]
      rw [ih acc hnd2 (fun k2 hk2 q2 hq2 => hdisj k2 hk2 q2 (List.mem_cons_of_mem _ hq2))]
      simp [keptParams]
    | pnull =>
      simp only [List.foldl_cons]
      rw [ih acc hnd2 (fun k2 hk2 q2 hq2 => hdisj k2 hk2 q2 (List.mem_cons_of_mem _ hq2))]
      simp [keptParams]

/-! ### Helper lemmas for the CORS headers -/

theorem findH_setH_same (hs : List (String × String)) (k v k2 : String)
    (h : lowerStr k2 = lowerStr k) :
    (setH hs k v).find? (fun p => lowerStr p.1 == lowerStr k2) = some (k, v) := by
  induction hs with
  | nil => simp [setH, List.find?, beq_iff_eq, h]
  | cons p t ih =>
    rw [setH]
    by_cases hp : lowerStr p.1 = lowerStr k
    · rw [if_pos hp]
      simp [List.find?, beq_iff_eq, h]
    · rw [if_neg hp]
      rw [List.find?]
      rw [show (lowerStr p.1 == lowerStr k2) = false from by
        rw [h]
        exact beq_eq_false_iff_ne.mpr hp]
      exact ih

theorem findH_setH_ne (hs : List (String × String)) (k v k2 : String)
    (h : lowerStr k2 ≠ lowerStr k) :
    (setH hs k v).find? (fun p => lowerStr p.1 == lowerStr k2)
      = hs.find? (fun p => lowerStr p.1 == lowerStr k2) := by
  induction hs with
  | nil =>
    simp only [setH, List.find?]
    rw [show (lowerStr k == lowerStr k2) = false from
      beq_eq_false_iff_ne.mpr (fun e => h e.symm)]
  | cons p t ih =>
    rw [setH]
    by_cases hp : lowerStr p.1 = lowerStr k
    · rw [if_pos hp]
      rw [List.find?, List.find?]
      rw [show (lowerStr k == lowerStr k2) = false from
        beq_eq_false_iff_ne.mpr (fun e => h e.symm)]
      rw [show (lowerStr p.1 == lowerStr k2) = false from
        beq_eq_false_iff_ne.mpr (fun e => h (hp ▸ e).symm)]
    · rw [if_neg hp]
      rw [List.find?, List.find?]
      cases hh : (lowerStr p.1 == lowerStr k2) with
      | true => rfl
      | false => exact ih



/-! ## Claim theorems -/

/-- C4: `codeTransform` with code type `access_token` round-trips JSON
serialization — for every JSON value `j` of the embedding,
`codeTransform (jsonStringify j) "access_token"` succeeds and returns `j` —
and for every other code type value (including absent) `codeTransform`
returns the code string unchanged. -/
theorem C4_codeTransform_roundtrip_identity :
    (∀ j : Json, codeTransform (jsonStringify j) (some "access_token")
        = Except.ok (Jsv.vjson j)) ∧
    (∀ (code : String) (ct : Option String), ct ≠ some "access_token" →
        codeTransform code ct = Except.ok (Jsv.vstr code)) := by
  constructor
  · intro j
    rw [codeTransform, if_pos rfl, jsonParseE_stringify j]
    rfl
  · intro code ct h
    rw [codeTransform, if_neg h]

/-- C4 witness: the identity branch at the concrete code types `auth_code`
and absent, and the round trip at a concrete object. -/
theorem C4_witness :
    (some "auth_code" ≠ some "access_token" ∧
      codeTransform "the-code" (some "auth_code") = Except.ok (Jsv.vstr "the-code")) ∧
    (none ≠ some "access_token" ∧
      codeTransform "raw" none = Except.ok (Jsv.vstr "raw")) ∧
    codeTransform (jsonStringify (Json.obj [("id", Json.str "abcd")]))
        (some "access_token")
      = Except.ok (Jsv.vjson (Json.obj [("id", Json.str "abcd")])) :=
  ⟨⟨by decide, C4_codeTransform_roundtrip_identity.2 "the-code" (some "auth_code") (by decide)⟩,
   ⟨by decide, C4_codeTransform_roundtrip_identity.2 "raw" none (by decide)⟩,
   C4_codeTransform_roundtrip_identity.1 (Json.obj [("id", Json.str "abcd")])⟩

/-- C5: `stringToJson` is total on strings and never throws: for every
input that does not parse as JSON it returns the empty object, and for
every well-formed JSON input it returns the parsed value (totality is
inherent: `stringToJson` is a Lean function into `Json`). -/
theorem C5_stringToJson_total (s : String) :
    ((jsonParseE s).isOk = false → stringToJson (some s) = Json.obj []) ∧
    (∀ j : Json, jsonParseE s = Except.ok j → stringToJson (some s) = j) := by
  constructor
  · intro h
    show (match jsonParseE s with
      | .ok j => j
      | .error _ => Json.obj []) = Json.obj []
    rw [jsonParseE_not_ok s h]
  · intro j h
    show (match jsonParseE s with
      | .ok j2 => j2
      | .error _ => Json.obj []) = j
    rw [h]

/-- C5 witness: a malformed input yields the empty object, a well-formed
input yields the parsed value. -/
theorem C5_witness :
    ((jsonParseE "not json").isOk = false ∧
      stringToJson (some "not json") = Json.obj []) ∧
    (jsonParseE "[3]" = Except.ok (Json.arr [Json.num 3]) ∧
      stringToJson (some "[3]") = Json.arr [Json.num 3]) :=
  ⟨⟨rfl, (C5_stringToJson_total "not json").1 rfl⟩,
   ⟨rfl, (C5_stringToJson_total "[3]").2 (Json.arr [Json.num 3]) rfl⟩⟩

/-- C9: in the native-window watcher, a navigated-to URL that starts with
the callback prefix but carries no (nonempty) `code=` match does NOT
produce the failure report naming the URL that the claim describes: the
guard of that branch reads `error`, an identifier bound nowhere in the
file, so a `ReferenceError` is thrown instead (the claim's intent — the
code is the bug, as the spec's own design note records). Non-matching URLs
are ignored and a nonempty code succeeds. -/
theorem C9_watcher_dead_error_branch :
    handleCallback "https://cb/done?error=denied" "https://cb"
      = CbOutcome.threwReferenceError ∧
    handleCallback "https://cb/done?code=" "https://cb"
      = CbOutcome.threwReferenceError ∧
    handleCallback "https://elsewhere/x" "https://cb" = CbOutcome.ignored ∧
    handleCallback "https://cb/done?code=abc&state=1" "https://cb"
      = CbOutcome.succeeded "abc" :=
  ⟨rfl, rfl, rfl, rfl⟩

/-- C10: `handleGET` strips the request URL by greedily deleting
everything up to and including the last `?`: with no `?` the whole URL is
parsed as the query string, with several `?` only the portion after the
last one survives, and a plain `GET /` yields a payload without `code` and
hence the failure outcome. -/
theorem C10_url_stripping :
    (∀ s : String, '?' ∉ s.data → replaceUpToLastQ s = s) ∧
    (∀ a b : List Char, '\n' ∉ a → '?' ∉ b →
      replaceUpToLastQ (String.mk (a ++ '?' :: b)) = String.mk b) ∧
    (∀ (id : String) (env : Env),
      (handleGET "/" id env).events
        = [Ev.respEnded, Ev.rejected "error code=undefined", Ev.doneCalled] ∧
      (handleGET "/" id env).resp.statusCode = 400) := by
  refine ⟨?_, ?_, ?_⟩
  · intro s h
    rw [replaceUpToLastQ, afterLastQ_none s.data h]
  · intro a b ha hb
    rw [replaceUpToLastQ, show (String.mk (a ++ '?' :: b)).data = a ++ '?' :: b from rfl,
      afterLastQ_last a b ha hb]
  · intro id env
    exact ⟨rfl, rfl⟩

/-- C10 witness: the three parts at concrete inputs. -/
theorem C10_witness :
    ('?' ∉ "/abc".data ∧ replaceUpToLastQ "/abc" = "/abc") ∧
    ('\n' ∉ ['/', 'a', '?', 'b'] ∧ '?' ∉ ['c'] ∧
      replaceUpToLastQ (String.mk (['/', 'a', '?', 'b'] ++ '?' :: ['c'])) = String.mk ['c']) ∧
    ((handleGET "/" "abcd" Env.prod).events
        = [Ev.respEnded, Ev.rejected "error code=undefined", Ev.doneCalled] ∧
      (handleGET "/" "abcd" Env.prod).resp.statusCode = 400) :=
  ⟨⟨by decide, C10_url_stripping.1 "/abc" (by decide)⟩,
   ⟨by decide, by decide, C10_url_stripping.2.1 ['/', 'a', '?', 'b'] ['c'] (by decide) (by decide)⟩,
   C10_url_stripping.2.2 "abcd" Env.prod⟩



/-- C7: `authSiteUrl` returns the base URL of the given environment (prod
by default) with exactly the entries of the parameter map whose value is a
defined, non-null string set as query parameters, in map order; undefined
and null entries are omitted entirely (they do not appear in the
serialization at all, in particular not as empty strings). -/
theorem C7_authSiteUrl_query (params : List (String × JsParam)) (env : Env)
    (hnd : (keysOf params).Nodup) :
    authSiteUrl params env = IMS_CLI_OAUTH_URL env ++ serializeQuery (keptParams params) ∧
    authSiteUrl params = IMS_CLI_OAUTH_URL Env.prod ++ serializeQuery (keptParams params) := by
  have hfold := authSiteUrl_foldl params [] hnd (by simp)
  constructor
  · show IMS_CLI_OAUTH_URL env
        ++ serializeQuery (params.foldl
          (fun acc kv =>
            match kv.2 with
            | .pstr v => spSet acc kv.1 v
            | _ => acc) []) = _
    rw [hfold]
    rfl
  · show IMS_CLI_OAUTH_URL Env.prod
        ++ serializeQuery (params.foldl
          (fun acc kv =>
            match kv.2 with
            | .pstr v => spSet acc kv.1 v
            | _ => acc) []) = _
    rw [hfold]
    rfl

/-- C7 witness: the spec's example map, with explicit and defaulted
environment, evaluated to the literal URL. -/
theorem C7_witness :
    (keysOf [("a", JsParam.pstr "b"), ("c", JsParam.pstr "d"), ("e", JsParam.pUndefined),
      ("f", JsParam.pnull)]).Nodup ∧
    authSiteUrl [("a", JsParam.pstr "b"), ("c", JsParam.pstr "d"), ("e", JsParam.pUndefined),
        ("f", JsParam.pnull)] Env.prod
      = IMS_CLI_OAUTH_URL Env.prod
        ++ serializeQuery (keptParams [("a", JsParam.pstr "b"), ("c", JsParam.pstr "d"),
          ("e", JsParam.pUndefined), ("f", JsParam.pnull)]) ∧
    authSiteUrl [("a", JsParam.pstr "b"), ("c", JsParam.pstr "d"), ("e", JsParam.pUndefined),
        ("f", JsParam.pnull)]
      = "https://aio-login.adobeioruntime.net/api/v1/web/default/applogin?a=b&c=d" :=
  ⟨by decide,
   (C7_authSiteUrl_query [("a", JsParam.pstr "b"), ("c", JsParam.pstr "d"),
      ("e", JsParam.pUndefined), ("f", JsParam.pnull)] Env.prod (by decide)).1,
   rfl⟩

/-- C8: `cors` sets `Access-Control-Allow-Origin` to exactly the origin
(scheme and host) of the environment's base URL — never a wildcard — along
with `Content-Type: text/plain`, `Access-Control-Request-Method: *`,
`Access-Control-Allow-Methods: OPTIONS, POST` and
`Access-Control-Allow-Headers: *`, defaults the environment to prod, and
returns the mutated response itself (every non-header field unchanged). -/
theorem C8_cors_headers (r : Resp) (env : Env) :
    getHeader (cors r env) "Access-Control-Allow-Origin"
      = some (urlOrigin (IMS_CLI_OAUTH_URL env)) ∧
    urlOrigin (IMS_CLI_OAUTH_URL env) = "https://aio-login.adobeioruntime.net" ∧
    getHeader (cors r env) "Access-Control-Allow-Origin" ≠ some "*" ∧
    getHeader (cors r env) "Content-Type" = some "text/plain" ∧
    getHeader (cors r env) "Access-Control-Request-Method" = some "*" ∧
    getHeader (cors r env) "Access-Control-Allow-Methods" = some "OPTIONS, POST" ∧
    getHeader (cors r env) "Access-Control-Allow-Headers" = some "*" ∧
    cors r = cors r Env.prod ∧
    (cors r env).statusCode = r.statusCode ∧
    (cors r env).ended = r.ended ∧
    (cors r env).body = r.body ∧
    (cors r env).sentHead = r.sentHead := by
  have hh : (cors r env).headers
      = setH (setH (setH (setH (setH r.headers "Content-Type" "text/plain")
          "Access-Control-Allow-Origin" (urlOrigin (IMS_CLI_OAUTH_URL env)))
          "Access-Control-Request-Method" "*")
          "Access-Control-Allow-Methods" "OPTIONS, POST")
          "Access-Control-Allow-Headers" "*" := rfl
  have horigin : getHeader (cors r env) "Access-Control-Allow-Origin"
      = some (urlOrigin (IMS_CLI_OAUTH_URL env)) := by
    rw [getHeader, hh, findH_setH_ne _ _ _ _ (by decide), findH_setH_ne _ _ _ _ (by decide),
      findH_setH_ne _ _ _ _ (by decide), findH_setH_same _ _ _ _ (by decide)]
    rfl
  refine ⟨horigin, ?_, ?_, ?_, ?_, ?_, ?_, rfl, rfl, rfl, rfl, rfl⟩
  · cases env <;> rfl
  · rw [horigin]
    cases env <;> decide
  · rw [getHeader, hh, findH_setH_ne _ _ _ _ (by decide), findH_setH_ne _ _ _ _ (by decide),
      findH_setH_ne _ _ _ _ (by decide), findH_setH_ne _ _ _ _ (by decide),
      findH_setH_same _ _ _ _ (by decide)]
    rfl
  · rw [getHeader, hh, findH_setH_ne _ _ _ _ (by decide), findH_setH_ne _ _ _ _ (by decide),
      findH_setH_same _ _ _ _ (by decide)]
    rfl
  · rw [getHeader, hh, findH_setH_ne _ _ _ _ (by decide), findH_setH_same _ _ _ _ (by decide)]
    rfl
  · rw [getHeader, hh, findH_setH_same _ _ _ _ (by decide)]
    rfl



/-- C1 counterexample: a payload whose `code` is truthy and whose decoded
`state.id` equals the expected id, yet the promise does not resolve — the
success branch evaluates `codeTransform` on a declared access token that
is not JSON, which throws before `resolve`, so the run consists of a
single throw event. -/
theorem C1_counterexample :
    truthy (qget (querystringParse (replaceUpToLastQ
      "/?code=bad&code_type=access_token&state=\x7b\"id\":\"abcd\"\x7d")) "code") = true ∧
    getProp (stringToJson (qget (querystringParse (replaceUpToLastQ
        "/?code=bad&code_type=access_token&state=\x7b\"id\":\"abcd\"\x7d")) "state")) "id"
      = Except.ok (Jprop.val (Json.str "abcd")) ∧
    (handleGET "/?code=bad&code_type=access_token&state=\x7b\"id\":\"abcd\"\x7d"
        "abcd" Env.prod).events
      = [Ev.threw jsonErrMsg] :=
  ⟨rfl, rfl, rfl⟩

/-- C1 (amended): for both handlers, the promise resolves with a (possibly
transformed) code iff the payload's `code` field is present and non-empty
AND the JSON-decoded `state`'s `id` property is exactly the expected id
string AND the code transform does not throw (i.e. the `code_type` is not
`access_token` with a non-JSON code); and any payload failing the
code/state guard yields the failure outcome (rejection naming the code). -/
theorem C1_resolution_iff (u : String) (chunks : List String) (id : String) (env : Env) :
    ((∃ v, Ev.resolved v ∈ (handleGET u id env).events) ↔
      (truthy (qget (querystringParse (replaceUpToLastQ u)) "code") = true ∧
       getProp (stringToJson (qget (querystringParse (replaceUpToLastQ u)) "state")) "id"
         = Except.ok (Jprop.val (Json.str id)) ∧
       (codeTransform ((qget (querystringParse (replaceUpToLastQ u)) "code").getD "")
         (qget (querystringParse (replaceUpToLastQ u)) "code_type")).isOk = true)) ∧
    ((∃ v, Ev.resolved v ∈ (handlePOST chunks id env).events) ↔
      (truthy (qget (querystringParse (String.join chunks)) "code") = true ∧
       getProp (stringToJson (qget (querystringParse (String.join chunks)) "state")) "id"
         = Except.ok (Jprop.val (Json.str id)) ∧
       (codeTransform ((qget (querystringParse (String.join chunks)) "code").getD "")
         (qget (querystringParse (String.join chunks)) "code_type")).isOk = true)) ∧
    (condEval (querystringParse (replaceUpToLastQ u)) id = Except.ok false →
      (handleGET u id env).events
        = [Ev.respEnded,
           Ev.rejected ("error code="
             ++ jsStr (qget (querystringParse (replaceUpToLastQ u)) "code")),
           Ev.doneCalled]) ∧
    (condEval (querystringParse (String.join chunks)) id = Except.ok false →
      (handlePOST chunks id env).events
        = [Ev.respEnded,
           Ev.rejected ("error code="
             ++ jsStr (qget (querystringParse (String.join chunks)) "code")),
           Ev.doneCalled]) := by
  refine ⟨?_, ?_, ?_, ?_⟩
  · exact runCallback_resolved_iff (querystringParse (replaceUpToLastQ u)) id
      (getSuccResp env) (getFailResp env) (cors Resp.init env)
  · exact runCallback_resolved_iff (querystringParse (String.join chunks)) id
      (postSuccResp env) (postFailResp env) (cors Resp.init env)
  · intro h
    rw [show handleGET u id env = runCallback (querystringParse (replaceUpToLastQ u)) id
        (getSuccResp env) (getFailResp env) (cors Resp.init env) from rfl,
      runCallback_fail _ _ _ _ _ h]
  · intro h
    rw [show handlePOST chunks id env = runCallback (querystringParse (String.join chunks)) id
        (postSuccResp env) (postFailResp env) (cors Resp.init env) from rfl,
      runCallback_fail _ _ _ _ _ h]

/-- C1 witness: both directions of the amended statement at concrete
inputs — a valid GET payload resolves, and the failure conjuncts at a
guard-failing payload. -/
theorem C1_witness :
    (∃ v, Ev.resolved v ∈ (handleGET
      "/?code=c1&state=\x7b\"id\":\"w1\"\x7d" "w1" Env.prod).events) ∧
    condEval (querystringParse (replaceUpToLastQ "nope")) "w1" = Except.ok false ∧
    (handleGET "nope" "w1" Env.prod).events
      = [Ev.respEnded, Ev.rejected "error code=undefined", Ev.doneCalled] ∧
    condEval (querystringParse (String.join [])) "w1" = Except.ok false ∧
    (handlePOST [] "w1" Env.prod).events
      = [Ev.respEnded, Ev.rejected "error code=undefined", Ev.doneCalled] :=
  ⟨((C1_resolution_iff "/?code=c1&state=\x7b\"id\":\"w1\"\x7d" [] "w1" Env.prod).1).mpr
      ⟨rfl, rfl, rfl⟩,
   rfl,
   (C1_resolution_iff "nope" [] "w1" Env.prod).2.2.1 rfl,
   rfl,
   (C1_resolution_iff "nope" [] "w1" Env.prod).2.2.2 rfl⟩

/-- C2 counterexample: at a failing GET payload the handler does reject
with the expected message, but the transmitted HTTP status is the 302 of
the `writeHead` redirect, not 400 — `response.statusCode = 400` is
assigned and then overridden by `writeHead(302, ...)`. -/
theorem C2_counterexample :
    (handleGET "nope" "sid" Env.prod).events
      = [Ev.respEnded, Ev.rejected "error code=undefined", Ev.doneCalled] ∧
    wireStatus (handleGET "nope" "sid" Env.prod).resp = 302 ∧
    wireStatus (handleGET "nope" "sid" Env.prod).resp ≠ 400 :=
  ⟨rfl, rfl, by decide⟩

/-- C2 (amended): for every payload failing the guard (mismatched or
throwing-free non-matching `state.id`, or absent/empty `code`), both
handlers reject with an error message `error code=` followed by the
submitted code value (`undefined` when absent). `handlePOST` sends status
400. `handleGET` assigns `statusCode = 400` but then issues
`writeHead(302)`, so the status actually transmitted is 302. -/
theorem C2_failure_status (u : String) (chunks : List String) (id : String) (env : Env)
    (hg : condEval (querystringParse (replaceUpToLastQ u)) id = Except.ok false)
    (hp : condEval (querystringParse (String.join chunks)) id = Except.ok false) :
    (handleGET u id env).events
      = [Ev.respEnded,
         Ev.rejected ("error code="
           ++ jsStr (qget (querystringParse (replaceUpToLastQ u)) "code")),
         Ev.doneCalled] ∧
    (handleGET u id env).resp.statusCode = 400 ∧
    (handleGET u id env).resp.sentHead = some 302 ∧
    wireStatus (handleGET u id env).resp = 302 ∧
    (handlePOST chunks id env).events
      = [Ev.respEnded,
         Ev.rejected ("error code="
           ++ jsStr (qget (querystringParse (String.join chunks)) "code")),
         Ev.doneCalled] ∧
    (handlePOST chunks id env).resp.sentHead = none ∧
    wireStatus (handlePOST chunks id env).resp = 400 := by
  have h1 : handleGET u id env
      = ⟨getFailResp env,
         [Ev.respEnded,
          Ev.rejected ("error code="
            ++ jsStr (qget (querystringParse (replaceUpToLastQ u)) "code")),
          Ev.doneCalled]⟩ :=
    runCallback_fail _ _ _ _ _ hg
  have h2 : handlePOST chunks id env
      = ⟨postFailResp env,
         [Ev.respEnded,
          Ev.rejected ("error code="
            ++ jsStr (qget (querystringParse (String.join chunks)) "code")),
          Ev.doneCalled]⟩ :=
    runCallback_fail _ _ _ _ _ hp
  rw [h1, h2]
  exact ⟨rfl, rfl, rfl, rfl, rfl, rfl, rfl⟩

/-- C2 witness: a mismatched-id payload with a present code — the
rejection message embeds the code, POST sends 400, GET transmits 302. -/
theorem C2_witness :
    condEval (querystringParse (replaceUpToLastQ "/?code=mycode&state=nope")) "sid"
      = Except.ok false ∧
    condEval (querystringParse (String.join ["code=mycode&state=nope"])) "sid"
      = Except.ok false ∧
    (handleGET "/?code=mycode&state=nope" "sid" Env.prod).events
      = [Ev.respEnded, Ev.rejected "error code=mycode", Ev.doneCalled] ∧
    (handleGET "/?code=mycode&state=nope" "sid" Env.prod).resp.statusCode = 400 ∧
    wireStatus (handleGET "/?code=mycode&state=nope" "sid" Env.prod).resp = 302 ∧
    wireStatus (handlePOST ["code=mycode&state=nope"] "sid" Env.prod).resp = 400 :=
  ⟨rfl, rfl,
   (C2_failure_status "/?code=mycode&state=nope" ["code=mycode&state=nope"]
      "sid" Env.prod rfl rfl).1,
   (C2_failure_status "/?code=mycode&state=nope" ["code=mycode&state=nope"]
      "sid" Env.prod rfl rfl).2.1,
   (C2_failure_status "/?code=mycode&state=nope" ["code=mycode&state=nope"]
      "sid" Env.prod rfl rfl).2.2.2.1,
   (C2_failure_status "/?code=mycode&state=nope" ["code=mycode&state=nope"]
      "sid" Env.prod rfl rfl).2.2.2.2.2.2⟩



/-- C3 counterexample: a handled GET request (truthy code, matching id,
`code_type=access_token` with a non-JSON code) on which `done` is never
invoked — the success branch throws in `codeTransform` before reaching
`response.end()` and `done()`. -/
theorem C3_counterexample :
    (handleGET "/?code=bad&code_type=access_token&state=\x7b\"id\":\"s3\"\x7d"
        "s3" Env.prod).events
      = [Ev.threw jsonErrMsg] ∧
    Ev.doneCalled ∉ (handleGET "/?code=bad&code_type=access_token&state=\x7b\"id\":\"s3\"\x7d"
        "s3" Env.prod).events := by
  refine ⟨rfl, ?_⟩
  intro h
  rw [show (handleGET "/?code=bad&code_type=access_token&state=\x7b\"id\":\"s3\"\x7d"
      "s3" Env.prod).events = [Ev.threw jsonErrMsg] from rfl] at h
  simp at h

/-- C3 (amended): whenever a handler run settles cleanly — the guard
evaluates without throwing, and on guard success the code transform
succeeds — `done` is invoked exactly once, as the last event, after the
response has been ended, in both `handleGET` and `handlePOST` and in both
the success and the failure branch. -/
theorem C3_done_called_once (u : String) (chunks : List String) (id : String) (env : Env)
    (hg : settlesCleanly (querystringParse (replaceUpToLastQ u)) id)
    (hp : settlesCleanly (querystringParse (String.join chunks)) id) :
    (∃ pre, (handleGET u id env).events = pre ++ [Ev.doneCalled] ∧
      Ev.respEnded ∈ pre ∧ Ev.doneCalled ∉ pre) ∧
    (handleGET u id env).resp.ended = true ∧
    (∃ pre, (handlePOST chunks id env).events = pre ++ [Ev.doneCalled] ∧
      Ev.respEnded ∈ pre ∧ Ev.doneCalled ∉ pre) ∧
    (handlePOST chunks id env).resp.ended = true := by
  have main : ∀ (q : List (String × String)) (sr fr er : Resp),
      settlesCleanly q id → sr.ended = true → fr.ended = true →
      (∃ pre, (runCallback q id sr fr er).events = pre ++ [Ev.doneCalled] ∧
        Ev.respEnded ∈ pre ∧ Ev.doneCalled ∉ pre) ∧
      (runCallback q id sr fr er).resp.ended = true := by
    intro q sr fr er hs hsr hfr
    rcases hs with h | ⟨h, hok⟩
    · rw [runCallback_fail q id sr fr er h]
      exact ⟨⟨[Ev.respEnded, Ev.rejected ("error code=" ++ jsStr (qget q "code"))],
        rfl, by simp, by simp⟩, hfr⟩
    · obtain ⟨v, hv⟩ := exceptJsv_isOk_exists _ hok
      rw [runCallback_succ q id sr fr er v h hv]
      exact ⟨⟨[Ev.resolved v, Ev.respEnded], rfl, by simp, by simp⟩, hsr⟩
  obtain ⟨hg1, hg2⟩ := main (querystringParse (replaceUpToLastQ u))
    (getSuccResp env) (getFailResp env) (cors Resp.init env) hg rfl rfl
  obtain ⟨hp1, hp2⟩ := main (querystringParse (String.join chunks))
    (postSuccResp env) (postFailResp env) (cors Resp.init env) hp rfl rfl
  exact ⟨hg1, hg2, hp1, hp2⟩

/-- C3 witness: the amended statement at a cleanly-settling success GET
payload and a cleanly-settling failure POST payload. -/
theorem C3_witness :
    settlesCleanly (querystringParse (replaceUpToLastQ
      "/?code=c1&state=\x7b\"id\":\"w3\"\x7d")) "w3" ∧
    settlesCleanly (querystringParse (String.join ["a=b"])) "w3" ∧
    ((∃ pre, (handleGET "/?code=c1&state=\x7b\"id\":\"w3\"\x7d" "w3" Env.prod).events
        = pre ++ [Ev.doneCalled] ∧ Ev.respEnded ∈ pre ∧ Ev.doneCalled ∉ pre) ∧
      (handleGET "/?code=c1&state=\x7b\"id\":\"w3\"\x7d" "w3" Env.prod).resp.ended = true ∧
      (∃ pre, (handlePOST ["a=b"] "w3" Env.prod).events = pre ++ [Ev.doneCalled] ∧
        Ev.respEnded ∈ pre ∧ Ev.doneCalled ∉ pre) ∧
      (handlePOST ["a=b"] "w3" Env.prod).resp.ended = true) :=
  ⟨Or.inr ⟨rfl, rfl⟩, Or.inl rfl,
   C3_done_called_once "/?code=c1&state=\x7b\"id\":\"w3\"\x7d" ["a=b"] "w3" Env.prod
     (Or.inr ⟨rfl, rfl⟩) (Or.inl rfl)⟩

/-- C6: a `code` that is not well-formed JSON makes
`codeTransform(code, "access_token")` raise (the JSON-parse failure is not
caught), and in `handleGET` this throw escapes the handler instead of
being converted into the validation-failure response: the run consists of
the single throw event, the response is never ended, no `writeHead` is
issued and `statusCode` is never touched — in contrast to `state`
decoding, which is defensively caught (`stringToJson`, claim C5). -/
theorem C6_access_token_throw (code u id : String) (env : Env)
    (hbad : (jsonParseE code).isOk = false)
    (hne : code ≠ "")
    (hcode : qget (querystringParse (replaceUpToLastQ u)) "code" = some code)
    (hct : qget (querystringParse (replaceUpToLastQ u)) "code_type" = some "access_token")
    (hst : getProp (stringToJson (qget (querystringParse (replaceUpToLastQ u)) "state")) "id"
      = Except.ok (Jprop.val (Json.str id))) :
    codeTransform code (some "access_token") = Except.error jsonErrMsg ∧
    (handleGET u id env).events = [Ev.threw jsonErrMsg] ∧
    (handleGET u id env).resp.ended = false ∧
    (handleGET u id env).resp.sentHead = none ∧
    (handleGET u id env).resp.statusCode = 200 := by
  have herr := jsonParseE_not_ok code hbad
  have hctrans : codeTransform code (some "access_token") = .error jsonErrMsg := by
    rw [codeTransform, if_pos rfl, herr]
    rfl
  have htruthy : truthy (qget (querystringParse (replaceUpToLastQ u)) "code") = true := by
    rw [hcode]
    simp [truthy, hne]
  have hcond := condEval_of_parts (querystringParse (replaceUpToLastQ u)) id htruthy hst
  have hrun : handleGET u id env = ⟨cors Resp.init env, [Ev.threw jsonErrMsg]⟩ := by
    show runCallback (querystringParse (replaceUpToLastQ u)) id
      (getSuccResp env) (getFailResp env) (cors Resp.init env) = _
    refine runCallback_transform_threw _ _ _ _ _ _ hcond ?_
    rw [hcode, hct]
    exact hctrans
  rw [hrun]
  exact ⟨hctrans, rfl, rfl, rfl, rfl⟩

/-- C6 witness: the theorem at a concrete malformed access token. -/
theorem C6_witness :
    ((jsonParseE "bad").isOk = false ∧ "bad" ≠ "" ∧
      qget (querystringParse (replaceUpToLastQ
        "/?code=bad&code_type=access_token&state=\x7b\"id\":\"zz\"\x7d")) "code"
        = some "bad" ∧
      qget (querystringParse (replaceUpToLastQ
        "/?code=bad&code_type=access_token&state=\x7b\"id\":\"zz\"\x7d")) "code_type"
        = some "access_token") ∧
    codeTransform "bad" (some "access_token") = Except.error jsonErrMsg ∧
    (handleGET "/?code=bad&code_type=access_token&state=\x7b\"id\":\"zz\"\x7d"
        "zz" Env.prod).events = [Ev.threw jsonErrMsg] ∧
    (handleGET "/?code=bad&code_type=access_token&state=\x7b\"id\":\"zz\"\x7d"
        "zz" Env.prod).resp.ended = false :=
  ⟨⟨rfl, by decide, rfl, rfl⟩,
   (C6_access_token_throw "bad"
      "/?code=bad&code_type=access_token&state=\x7b\"id\":\"zz\"\x7d" "zz" Env.prod
      rfl (by decide) rfl rfl rfl).1,
   (C6_access_token_throw "bad"
      "/?code=bad&code_type=access_token&state=\x7b\"id\":\"zz\"\x7d" "zz" Env.prod
      rfl (by decide) rfl rfl rfl).2.1,
   (C6_access_token_throw "bad"
      "/?code=bad&code_type=access_token&state=\x7b\"id\":\"zz\"\x7d" "zz" Env.prod
      rfl (by decide) rfl rfl rfl).2.2.1⟩

end AioOauth
